import Mathlib

/-!
Verification development for the chart-of-accounts engine of the
fixed-assets-management backend.  The operations are shallow embeddings of
the functions in `modules/account/utils.py`; the persisted store is a list
of account rows, and the journal / transaction tables are read-only lists
passed explicitly.  Database sessions are modelled at commit granularity:
an operation that raises before its commit leaves the store unchanged.
-/

namespace FixedAssets

/-- Modelled from the spec: the `Account` ORM class (the SQLAlchemy model
module is not part of the sources at hand; fields follow spec section 3:
surrogate `id`, free-text `name`, hierarchical `code`, optional parent
reference, `nature` in \x7bdebit, credit, both\x7d, `account_type` in
\x7bbalance_sheet, p&l, null\x7d, boolean `cc_required`). -/
structure Account where
  id : Nat
  name : String
  code : String
  parent_id : Option Nat
  nature : Option String
  cc_required : Bool
  account_type : Option String
deriving DecidableEq

/-- Modelled from the spec: a `DailyEntries` journal row (external
collaborator, spec section 3): it references two accounts by name and
carries a debit and a credit amount. -/
structure DailyEntry where
  debit : String
  credit : String
  debit_amount : Int
  credit_amount : Int
deriving DecidableEq

/-- Modelled from the spec: a sales / purchase / expense transaction row,
of which the account module only ever reads the `account_id` foreign key. -/
structure TxRef where
  account_id : Nat
deriving DecidableEq

/-- The persisted account table, in insertion order. -/
abbrev Store := List Account

/-- Errors surfaced by the account module: `BadRequest`,
`AccountExistsException`, `ParentNotFoundException`,
`AccountNotFoundException`, plus `internal` for exceptions the Python code
would let escape uncaught. -/
inductive AccountErr where
  | badRequest (msg : String)
  | accountExists (msg : String)
  | parentNotFound (msg : String)
  | accountNotFound (msg : String)
  | internal (msg : String)
deriving DecidableEq

/- ### String primitives

Python's `str.lower`, `str.strip`, slicing, substring test, `int(...)`
and SQL's lexicographic string ordering, embedded structurally over the
character list of the string (the account data is ASCII). -/

/-- ASCII lower-casing of one character, as Python `str.lower` acts on
ASCII data. -/
def charLower (c : Char) : Char :=
  if 65 ≤ c.toNat && c.toNat ≤ 90 then Char.ofNat (c.toNat + 32) else c

/-- Python `s.lower()` on ASCII strings. -/
def pyLower (s : String) : String := String.mk (s.data.map charLower)

/-- Python whitespace for `str.strip`. -/
def isSpaceChar (c : Char) : Bool :=
  c.toNat == 32 || c.toNat == 9 || c.toNat == 10 || c.toNat == 13 ||
    c.toNat == 11 || c.toNat == 12

/-- Python `s.strip()`. -/
def pyStrip (s : String) : String :=
  String.mk (((s.data.dropWhile isSpaceChar).reverse.dropWhile isSpaceChar).reverse)

/-- Python slicing `s[:n]`. -/
def strTakeD (s : String) (n : Nat) : String := String.mk (s.data.take n)

/-- Python slicing `s[-n:]` (for `n` at most the length; on shorter
strings it returns the whole string, as the slice does). -/
def strTakeRightD (s : String) (n : Nat) : String :=
  String.mk (s.data.drop (s.data.length - n))

/-- Python `s.endswith(t)`. -/
def strEndsWithD (s t : String) : Bool := t.data.isSuffixOf s.data

/-- Containment helper over character lists for Python `t in s`. -/
def containsAux (pat : List Char) : List Char → Bool
  | [] => pat.isPrefixOf []
  | c :: rest => pat.isPrefixOf (c :: rest) || containsAux pat rest

/-- Python substring test `pat in s`. -/
def strContainsB (s pat : String) : Bool := containsAux pat.data s.data

/-- Value of a decimal digit string, Python `int(s)` on the digit-only
codes of the store (non-digit input, on which `int` raises, is mapped to
0; every theorem below is used only on stores with digit codes). -/
def strToNat0 (s : String) : Nat :=
  s.data.foldl (fun n c => n * 10 + (c.toNat - 48)) 0

/-- Boolean digit test for one character. -/
def isDigitChar (c : Char) : Bool := 48 ≤ c.toNat && c.toNat ≤ 57

/-- Boolean test that a string is nonempty and all decimal digits. -/
def isDigitStr (s : String) : Bool := !s.data.isEmpty && s.data.all isDigitChar

/-- Python `str(n).zfill(3)`: the decimal representation of `n` left-padded
with zeros to width 3. -/
def zfill3 (n : Nat) : String :=
  let s := Nat.repr n
  if s.length ≥ 3 then s else String.mk (List.replicate (3 - s.length) '0' ++ s.data)

/-- Strict lexicographic comparison of character lists by code point,
the ordering SQL uses on the ASCII `code` column. -/
def strLtAux : List Char → List Char → Bool
  | [], [] => false
  | [], _ :: _ => true
  | _ :: _, [] => false
  | c :: cs, d :: ds =>
    if c.toNat < d.toNat then true
    else if d.toNat < c.toNat then false
    else strLtAux cs ds

/-- SQL `<` on string columns. -/
def strLtB (s t : String) : Bool := strLtAux s.data t.data

/- ### Store primitives -/

/-- `session.query(Account).filter_by(id=i).first()`. -/
def findAcct (s : Store) (i : Nat) : Option Account :=
  s.find? (fun x => x.id == i)

/-- Mutating the first row matched by a predicate, which is how a
SQLAlchemy update of the object returned by `.first()` lands in the table. -/
def modifyFirst (p : Account → Bool) (f : Account → Account) : Store → Store
  | [] => []
  | a :: as => if p a then f a :: as else a :: modifyFirst p f as

/-- `session.delete(obj)` for the row found by `.first()`. -/
def eraseFirstP (p : Account → Bool) : Store → Store
  | [] => []
  | a :: as => if p a then as else a :: eraseFirstP p as

/-- `order_by(Account.code.desc()).first()` over an already-filtered row
list: the row with the lexicographically greatest code. -/
def lastByCodeDesc (l : List Account) : Option Account :=
  l.foldl
    (fun acc x =>
      match acc with
      | none => some x
      | some m => if strLtB m.code x.code then some x else some m)
    none

/-- Ascending `order_by(Account.code)`: insertion of one row into a
code-sorted list. -/
def insertByCode (a : Account) : List Account → List Account
  | [] => [a]
  | b :: bs => if strLtB b.code a.code then b :: insertByCode a bs else a :: b :: bs

/-- Ascending `order_by(Account.code)` over a filtered row list. -/
def sortByCode : List Account → List Account
  | [] => []
  | a :: as => insertByCode a (sortByCode as)

/-- The next id the database sequence hands to an inserted row. -/
def nextId (s : Store) : Nat := (s.foldl (fun m a => max m a.id) 0) + 1

/-- All root rows, `filter(Account.parent_id == None)` in table order. -/
def rootRows (s : Store) : List Account := s.filter (fun x => x.parent_id == none)

/-- All child rows of the account with the given id. -/
def childRows (s : Store) (i : Nat) : List Account :=
  s.filter (fun x => x.parent_id == some i)

/- ### Embeddings of modules/account/utils.py -/

/-- `get_root_account`, with fuel bounding the parent-chain walk (the
Python `while` loop terminates exactly on the acyclic stores all theorems
below are about); `none` models the walk failing (dangling parent id, on
which Python raises). -/
def rootOfAux (s : Store) : Nat → Account → Option Account
  | 0, _ => none
  | fuel + 1, a =>
    match a.parent_id with
    | none => some a
    | some pid =>
      match findAcct s pid with
      | none => none
      | some p => rootOfAux s fuel p

/-- `get_root_account(session, account)`. -/
def get_root_account (s : Store) (a : Account) : Option Account :=
  rootOfAux s (s.length + 1) a

/-- `check_if_account_exist(session, name)`: true iff a row matches the
name case-insensitively, in which case the caller raises `AccountExists`. -/
def check_if_account_exist (s : Store) (name : String) : Bool :=
  (s.find? (fun x => pyLower x.name == pyLower name)).isSome

/-- `generate_code(session, parent)`. -/
def generate_code (s : Store) (parent : Option Account) : String :=
  match parent with
  | none =>
    match lastByCodeDesc (rootRows s) with
    | some last => Nat.repr ((strToNat0 last.code / 1000 + 1) * 1000)
    | none => "1000"
  | some p =>
    let pc := p.code
    match lastByCodeDesc (childRows s p.id) with
    | some last =>
      if pc.length == 4 && strEndsWithD pc ("000") then
        strTakeD pc 1 ++ zfill3 (strToNat0 (strTakeRightD last.code 3) + 1)
      else if pc.length == 4 then
        pc ++ zfill3 (strToNat0 (strTakeRightD last.code 3) + 1)
      else
        pc ++ zfill3 (strToNat0 (strTakeRightD last.code 3) + 1)
    | none =>
      if pc.length == 4 && strEndsWithD pc ("000") then strTakeD pc 1 ++ ("001")
      else pc ++ ("001")

/-- The lookup predicate of `validate_root_accounts`: exact name match
with null parent. -/
def rootPred (nm : String) (x : Account) : Bool :=
  x.name == nm && x.parent_id == none

/-- The field canonicalisation `validate_root_accounts` applies to an
already existing root. -/
def canonRoot (tp : String) (x : Account) : Account :=
  { x with account_type := some tp, cc_required := false }

/-- One pass of the `root_accounts` loop body in `validate_root_accounts`:
look the root up by exact name with null parent; create it with a
generated code if absent, otherwise re-canonicalise its `account_type`
and `cc_required`. -/
def bootstrapStep (s : Store) (nm nat tp : String) : Store :=
  match s.find? (rootPred nm) with
  | none =>
    s ++ [{ id := nextId s, name := nm, code := generate_code s none,
            parent_id := none, nature := some nat, cc_required := false,
            account_type := some tp }]
  | some _ => modifyFirst (rootPred nm) (canonRoot tp) s

/-- `validate_root_accounts(session)`: the four steps run in the insertion
order of the `root_accounts` dict, each one seeing the rows the previous
ones flushed. -/
def validate_root_accounts (s : Store) : Store :=
  bootstrapStep
    (bootstrapStep
      (bootstrapStep
        (bootstrapStep s ("Assets") ("debit") ("balance_sheet"))
        ("Liability & Equity") ("credit") ("balance_sheet"))
      ("Expenses") ("debit") ("p&l"))
    ("Revenue") ("credit") ("p&l")

/-- The request body of `CreateAccount`, already through the marshaling
layer (`services.py` guarantees `cc_required` is a boolean). -/
structure CreateBody where
  name : String
  parent_id : Option Nat := none
  nature : Option String := none
  cc_required : Bool := false
  account_type : Option String := none

/-- Python truthiness of an optional string (absent or empty is falsy). -/
def optTruthy : Option String → Bool
  | none => false
  | some t => t != ""

/-- `extract_body(body)`. -/
def extract_body (body : CreateBody) :
    Except AccountErr (String × Option Nat × Option String × Bool × Option String) :=
  let nature := body.nature.map (fun t => pyLower (pyStrip t))
  if optTruthy nature &&
      !(nature == some ("debit") || nature == some ("credit") || nature == some ("both")) then
    .error (.badRequest ("Nature should be debit, credit or both"))
  else if optTruthy body.account_type &&
      !(body.account_type == some ("balance_sheet") || body.account_type == some ("p&l")) then
    .error (.badRequest ("Account type must be balance_sheet or p&l"))
  else
    .ok (pyStrip body.name, body.parent_id, nature, body.cc_required, body.account_type)

/-- `fill_new_account_info(session, name, nature, parent, cc_required,
account_type)`; `parent` is never `None` on the call path from account
creation, so it is taken as a plain row, and the id is left for the
caller's insert.  Failure of the root walk models the uncaught attribute
error Python would raise there. -/
def fill_new_account_info (s : Store) (name : String) (nature : Option String)
    (parent : Account) (cc_required : Bool) (account_type : Option String) :
    Except AccountErr Account :=
  match get_root_account s parent with
  | none => .error (.internal ("root walk failed"))
  | some root =>
    let account_type :=
      if account_type == none then
        if root.name == ("Assets") || root.name == ("Liability & Equity") then
          some ("balance_sheet")
        else if root.name == ("Revenue") || root.name == ("Expenses") then
          some ("p&l")
        else account_type
      else account_type
    let cc_required :=
      if cc_required == false then
        let cc1 :=
          if root.name == ("Expenses") then
            if !strContainsB (pyLower name) ("depreciation") &&
                !strContainsB (pyLower name) ("bank charges") then true
            else cc_required
          else cc_required
        if strContainsB (pyLower name) ("cost of goods sold") ||
            strContainsB (pyLower name) ("rebate") then true
        else cc1
      else cc_required
    .ok { id := 0, name := name, code := generate_code s (some parent),
          parent_id := some parent.id, nature := nature,
          cc_required := cc_required, account_type := account_type }

/-- The tail of the creation path shared by every branch of
`create_account_in_account_tree`: fill the new row, give it the next id,
insert and commit. -/
def finishCreate (s1 : Store) (name : String) (nature : Option String)
    (parent : Account) (cc_required : Bool) (account_type : Option String) :
    Store × Except AccountErr Account :=
  match fill_new_account_info s1 name nature parent cc_required account_type with
  | .error e => (s1, .error e)
  | .ok a0 =>
    let a := { a0 with id := nextId s1 }
    (s1 ++ [a], .ok a)

/-- `create_account_in_account_tree(session, body)`.  The returned store is
the post-operation table: `validate_root_accounts` commits before any
check runs, so every failure after it still keeps the bootstrapped rows;
the generic exception handler (pid 0 resolving to a falsy parent, failing
root walk) rolls back to that same committed state. -/
def create_account_in_account_tree (s : Store) (body : CreateBody) :
    Store × Except AccountErr Account :=
  let s1 := validate_root_accounts s
  match extract_body body with
  | .error e => (s1, .error e)
  | .ok (name, parent_id, nature, cc_required, account_type) =>
    if check_if_account_exist s1 name then
      (s1, .error (.accountExists ("Account with name [" ++ name ++ ("] already exists"))))
    else
      match parent_id with
      | none =>
        (s1, .error (.badRequest
          ("Cannot create new root accounts. Only use the 4 standard root accounts.")))
      | some pid =>
        if pid == 0 then
          (s1, .error (.badRequest ("Database error")))
        else
          match findAcct s1 pid with
          | none =>
            (s1, .error (.parentNotFound
              ("Parent account with id [" ++ toString pid ++ ("] not found"))))
          | some parent =>
            match get_root_account s1 parent with
            | none => (s1, .error (.badRequest ("Database error")))
            | some root =>
              let rn := pyLower root.name
              if rn == ("assets") then
                if optTruthy nature && nature != some ("debit") then
                  (s1, .error (.badRequest ("Accounts under Assets must have debit nature")))
                else if optTruthy account_type && account_type != some ("balance_sheet") then
                  (s1, .error (.badRequest
                    ("Accounts under Assets must have balance_sheet account type")))
                else
                  finishCreate s1 name (some ("debit")) parent cc_required
                    (some ("balance_sheet"))
              else if rn == ("liability & equity") then
                if optTruthy nature && nature != some ("credit") then
                  (s1, .error (.badRequest
                    ("Accounts under Liability & Equity must have credit nature")))
                else if optTruthy account_type && account_type != some ("balance_sheet") then
                  (s1, .error (.badRequest
                    ("Accounts under Liability & Equity must have balance_sheet account type")))
                else
                  finishCreate s1 name (some ("credit")) parent cc_required
                    (some ("balance_sheet"))
              else if rn == ("expenses") then
                if optTruthy account_type && account_type != some ("p&l") then
                  (s1, .error (.badRequest
                    ("Accounts under Expenses must have p&l account type")))
                else
                  finishCreate s1 name (if optTruthy nature then nature else some ("debit"))
                    parent cc_required (some ("p&l"))
              else if rn == ("revenue") then
                if optTruthy account_type && account_type != some ("p&l") then
                  (s1, .error (.badRequest
                    ("Accounts under Revenue must have p&l account type")))
                else
                  finishCreate s1 name (if optTruthy nature then nature else some ("credit"))
                    parent cc_required (some ("p&l"))
              else
                finishCreate s1 name nature parent cc_required account_type

/-- The update request of `UpdateAccount`, already through the marshaling
layer (`services.py` forwards at most these three keys; a `name` key is a
string and a `cc_required` key a boolean there or the operation rejects
before this code runs).  For `account_type`, `some none` stands for an
explicit `None` or `''` value and `some (some t)` for a string value. -/
structure UpdateFields where
  name : Option String := none
  cc_required : Option Bool := none
  account_type : Option (Option String) := none

/-- The name branch of `update_account`: validates, checks journal usage
and case-insensitive collision, and returns the updated in-memory row
together with the grown change list. -/
def updateNameStage (s : Store) (entries : List DailyEntry) (uf : UpdateFields)
    (acct : Account) (changes : List String) :
    Except AccountErr (Account × List String) :=
  match uf.name with
  | none => .ok (acct, changes)
  | some n =>
    let new_name := pyStrip n
    if new_name == "" then
      .error (.badRequest ("Account name cannot be empty"))
    else if pyLower acct.name != pyLower new_name then
      if (entries.countP (fun e => e.debit == acct.name || e.credit == acct.name)) > 0 then
        .error (.badRequest ("Account with name [" ++ acct.name ++
          ("] has existing transactions and cannot modify its name")))
      else if check_if_account_exist s new_name then
        .error (.accountExists ("Account with name [" ++ new_name ++ ("] already exists")))
      else
        .ok ({ acct with name := new_name }, changes ++ [("name")])
    else
      .ok (acct, changes)

/-- The `cc_required` branch of `update_account`. -/
def updateCcStage (purch expn : List TxRef) (uf : UpdateFields)
    (acct : Account) (changes : List String) :
    Except AccountErr (Account × List String) :=
  match uf.cc_required with
  | none => .ok (acct, changes)
  | some cc =>
    if acct.cc_required != cc then
      if !cc && acct.cc_required then
        let is_pe := purch.any (fun t => t.account_id == acct.id) ||
          expn.any (fun t => t.account_id == acct.id)
        let is_cr := strContainsB (pyLower acct.name) ("cost of goods sold") ||
          strContainsB (pyLower acct.name) ("rebate")
        if is_pe || is_cr then
          .error (.badRequest ("Cannot disable cost center requirement for account [" ++
            acct.name ++ ("] because it is used for purchase, expense, COGS or rebates")))
        else
          .ok ({ acct with cc_required := cc }, changes ++ [("cost center requirement")])
      else
        .ok ({ acct with cc_required := cc }, changes ++ [("cost center requirement")])
    else
      .ok (acct, changes)

/-- The `account_type` branch of `update_account`; the root walk starts at
the in-memory row, as `get_root_account(session, account)` does. -/
def updateTypeStage (s : Store) (uf : UpdateFields)
    (acct : Account) (changes : List String) :
    Except AccountErr (Account × List String) :=
  match uf.account_type with
  | none => .ok (acct, changes)
  | some none =>
    if acct.account_type != none then
      .ok ({ acct with account_type := none }, changes ++ [("account type")])
    else
      .ok (acct, changes)
  | some (some t) =>
    let new_account_type := pyStrip t
    if !(new_account_type == ("balance_sheet") || new_account_type == ("p&l")) then
      .error (.badRequest ("Account type must be balance_sheet or p&l"))
    else if acct.account_type != some new_account_type then
      match get_root_account s acct with
      | none => .error (.internal ("root walk failed"))
      | some root =>
        if new_account_type == ("balance_sheet") &&
            !(root.name == ("Assets") || root.name == ("Liability & Equity")) then
          .error (.badRequest ("Cannot set account type to balance_sheet for accounts under [" ++
            root.name ++ ("]")))
        else if new_account_type == ("p&l") &&
            !(root.name == ("Revenue") || root.name == ("Expenses")) then
          .error (.badRequest ("Cannot set account type to p&l for accounts under [" ++
            root.name ++ ("]")))
        else
          .ok ({ acct with account_type := some new_account_type },
            changes ++ [("account type")])
    else
      .ok (acct, changes)

/-- `update_account(session, account_id, update_fields)`: on success the
returned store carries the mutated row committed in place of the old one
(`"No changes detected"` leaves the table untouched); on any raise the
session is closed without commit so the table is unchanged. -/
def update_account (s : Store) (entries : List DailyEntry) (purch expn : List TxRef)
    (account_id : Nat) (uf : UpdateFields) : Except AccountErr (Store × String) :=
  match findAcct s account_id with
  | none =>
    .error (.accountNotFound ("Account with id [" ++ toString account_id ++ ("] not exist")))
  | some account0 =>
    match updateNameStage s entries uf account0 [] with
    | .error e => .error e
    | .ok (a1, c1) =>
      match updateCcStage purch expn uf a1 c1 with
      | .error e => .error e
      | .ok (a2, c2) =>
        match updateTypeStage s uf a2 c2 with
        | .error e => .error e
        | .ok (a3, c3) =>
          if c3.isEmpty then
            .ok (s, ("No changes detected"))
          else
            .ok (modifyFirst (fun x => x.id == account_id) (fun _ => a3) s,
              ("Account updated successfully. Changed fields: ") ++
                String.intercalate (", ") c3)

/-- `delete_account(session, account_id)`: each blocking reason is checked
in turn and raises its own `BadRequest` before the row is deleted. -/
def delete_account (s : Store) (entries : List DailyEntry)
    (sales purch expn : List TxRef) (account_id : Nat) :
    Except AccountErr (Store × Account) :=
  match findAcct s account_id with
  | none =>
    .error (.accountNotFound ("Account with id [" ++ toString account_id ++ ("] not exist")))
  | some account =>
    if (s.countP (fun x => x.parent_id == some account.id)) > 0 then
      .error (.badRequest ("Account with id [" ++ toString account_id ++
        ("] is a parent account and cannot be deleted")))
    else if (entries.countP (fun e => e.debit == account.name || e.credit == account.name)) > 0 then
      .error (.badRequest ("Account with name [" ++ account.name ++
        ("] has been used in transactions so cannot be deleted")))
    else if (sales.countP (fun t => t.account_id == account.id)) > 0 then
      .error (.badRequest ("Account with id [" ++ toString account_id ++ ("] is referenced by ") ++
        toString (sales.countP (fun t => t.account_id == account.id)) ++
        (" sales transactions and cannot be deleted")))
    else if (purch.countP (fun t => t.account_id == account.id)) > 0 then
      .error (.badRequest ("Account with id [" ++ toString account_id ++ ("] is referenced by ") ++
        toString (purch.countP (fun t => t.account_id == account.id)) ++
        (" purchase transactions and cannot be deleted")))
    else if (expn.countP (fun t => t.account_id == account.id)) > 0 then
      .error (.badRequest ("Account with id [" ++ toString account_id ++ ("] is referenced by ") ++
        toString (expn.countP (fun t => t.account_id == account.id)) ++
        (" expense transactions and cannot be deleted")))
    else
      .ok (eraseFirstP (fun x => x.id == account_id) s, account)

/-- A node of the rollup tree returned by `GetTree`: the row, its subtree
debit / credit totals, and the rolled-up children in code order. -/
structure TreeNode where
  account : Account
  debit_amount : Int
  credit_amount : Int
  children : List TreeNode

/-- Sum of `debit_amount` over the journal rows whose debit name equals
the account's name, the `own_debit` of `get_all_accounts_from_stmt`. -/
def own_debit (entries : List DailyEntry) (a : Account) : Int :=
  ((entries.filter (fun e => e.debit == a.name)).map (fun e => e.debit_amount)).sum

/-- Sum of `credit_amount` over the journal rows whose credit name equals
the account's name. -/
def own_credit (entries : List DailyEntry) (a : Account) : Int :=
  ((entries.filter (fun e => e.credit == a.name)).map (fun e => e.credit_amount)).sum

/-- `compute_account_totals` of `get_all_accounts_from_stmt`, with fuel
bounding the recursion depth (sufficient fuel is passed at the top; the
Python recursion terminates exactly on the acyclic stores the theorems
below are about). -/
def compute_account_totals (s : Store) (entries : List DailyEntry) :
    Nat → Account → TreeNode
  | 0, a => ⟨a, own_debit entries a, own_credit entries a, []⟩
  | fuel + 1, a =>
    let cts := (sortByCode (childRows s a.id)).map (compute_account_totals s entries fuel)
    ⟨a, own_debit entries a + (cts.map (fun t => t.debit_amount)).sum,
      own_credit entries a + (cts.map (fun t => t.credit_amount)).sum, cts⟩

/-- The result shape of `get_all_accounts_from_stmt`. -/
structure TreeResult where
  accounts : List TreeNode
  grand_total_debit : Int
  grand_total_credit : Int

/-- `get_account_tree(session)` composed with `get_all_accounts_from_stmt`:
roll up every root and sum the roots' totals into the grand totals. -/
def get_account_tree (s : Store) (entries : List DailyEntry) : TreeResult :=
  let nodes := (rootRows s).map (compute_account_totals s entries s.length)
  ⟨nodes, (nodes.map (fun t => t.debit_amount)).sum,
    (nodes.map (fun t => t.credit_amount)).sum⟩

/-- A node of the plain subtree returned by `get_accounts_by_parent_name`
(children in table order, no totals). -/
structure NamedTree where
  account : Account
  children : List NamedTree

/-- `build_account_tree` of `get_accounts_by_parent_name`, fueled like the
other recursive walks. -/
def build_account_tree (s : Store) : Nat → Account → NamedTree
  | 0, a => ⟨a, []⟩
  | fuel + 1, a => ⟨a, (childRows s a.id).map (build_account_tree s fuel)⟩

/-- `get_accounts_by_parent_name(session, parent_name)`: exact
case-sensitive name lookup, then the full descendant subtree. -/
def get_accounts_by_parent_name (s : Store) (parent_name : String) :
    Except AccountErr NamedTree :=
  match s.find? (fun x => x.name == parent_name) with
  | none =>
    .error (.accountNotFound ("Parent account with name [" ++ parent_name ++ ("] not found")))
  | some p => .ok (build_account_tree s s.length p)

/-- The `GET` tree endpoint as a state transformer: it only reads. -/
def read_tree_op (s : Store) (entries : List DailyEntry) : Store × TreeResult :=
  (s, get_account_tree s entries)

/-- The read-by-parent-name endpoint as a state transformer: it only reads. -/
def read_by_parent_name_op (s : Store) (nm : String) :
    Store × Except AccountErr NamedTree :=
  (s, get_accounts_by_parent_name s nm)

/- ### Spec-side predicates -/

/-- The names of the root rows, in table order. -/
def rootNamesOf (s : Store) : List String := (rootRows s).map (fun x => x.name)

/-- The spec's root invariant: exactly the four canonical roots exist. -/
def RootsOKb (s : Store) : Bool :=
  rootNamesOf s == [("Assets"), ("Liability & Equity"), ("Expenses"), ("Revenue")]

/-- The observable fields of a root row used by the bootstrap contract. -/
def rootProj (a : Account) : String × String × Option String × Option String × Bool :=
  (a.name, a.code, a.nature, a.account_type, a.cc_required)

/-- The canonical projections of the four bootstrapped roots. -/
def canonicalRootProjs :
    List (String × String × Option String × Option String × Bool) :=
  [(("Assets"), ("1000"), some ("debit"), some ("balance_sheet"), false),
   (("Liability & Equity"), ("2000"), some ("credit"), some ("balance_sheet"), false),
   (("Expenses"), ("3000"), some ("debit"), some ("p&l"), false),
   (("Revenue"), ("4000"), some ("credit"), some ("p&l"), false)]

/-- The roots are exactly the four canonical ones, canonical fields
included. -/
def CanonicalRootsb (s : Store) : Bool :=
  (rootRows s).map rootProj == canonicalRootProjs

/-- Leaf rows: accounts with no children anywhere in the table. -/
def leaves_of (s : Store) : List Account :=
  s.filter (fun a => !(s.any (fun b => b.parent_id == some a.id)))

/-- The account and all its descendants, in the rollup's visiting order,
fueled like `compute_account_totals`. -/
def subtree_accounts (s : Store) : Nat → Account → List Account
  | 0, a => [a]
  | fuel + 1, a =>
    a :: ((sortByCode (childRows s a.id)).map (subtree_accounts s fuel)).flatten

/-- Every account `GetTree` visits: each root with its descendants. -/
def forest_accounts (s : Store) : List Account :=
  ((rootRows s).map (subtree_accounts s s.length)).flatten

/-- No parent id dangles. -/
def NoDanglingb (s : Store) : Bool :=
  s.all (fun a =>
    match a.parent_id with
    | none => true
    | some pid => (findAcct s pid).isSome)

/-- Boolean pairwise-distinctness of a list. -/
def nodupB [BEq α] : List α → Bool
  | [] => true
  | x :: xs => !xs.contains x && nodupB xs

/-- Row ids are pairwise distinct. -/
def NodupIdsb (s : Store) : Bool :=
  nodupB (s.map (fun a => a.id))

/-- The root-policy constraint of one account against its resolved root
(spec section 4.2 table, with a cleared `account_type` also admitted). -/
def policyRowOKb (s : Store) (a : Account) : Bool :=
  match get_root_account s a with
  | none => true
  | some r =>
    (r.name == ("Assets") →
      (a.nature == some ("debit") &&
        (a.account_type == some ("balance_sheet") || a.account_type == none))) &&
    (r.name == ("Liability & Equity") →
      (a.nature == some ("credit") &&
        (a.account_type == some ("balance_sheet") || a.account_type == none))) &&
    (r.name == ("Expenses") →
      (a.account_type == some ("p&l") || a.account_type == none)) &&
    (r.name == ("Revenue") →
      (a.account_type == some ("p&l") || a.account_type == none))

/-- The root-policy invariant over the whole table. -/
def PolicyOKb (s : Store) : Bool := s.all (policyRowOKb s)

/-- The claim's own strict reading of the section 4.2 table, with no
allowance for a null `account_type`: descendants of Assets and of
Liability & Equity carry `balance_sheet`, descendants of Expenses and of
Revenue carry `p&l`. -/
def policyRowStrictb (s : Store) (a : Account) : Bool :=
  match get_root_account s a with
  | none => true
  | some r =>
    (r.name == ("Assets") →
      (a.nature == some ("debit") && a.account_type == some ("balance_sheet"))) &&
    (r.name == ("Liability & Equity") →
      (a.nature == some ("credit") && a.account_type == some ("balance_sheet"))) &&
    (r.name == ("Expenses") → a.account_type == some ("p&l")) &&
    (r.name == ("Revenue") → a.account_type == some ("p&l"))

/-- The claim's strict table reading over the whole store. -/
def PolicyStrictb (s : Store) : Bool := s.all (policyRowStrictb s)

/-- The value of the trailing three characters of a code. -/
def suffix3Val (c : String) : Nat := strToNat0 (strTakeRightD c 3)

/-- Structural nesting of a child code under its parent's code, per the
generation scheme: under a root, a four-character code sharing the root's
leading digit with a nonzero three-digit-valued suffix; under a deeper
node, the parent's code extended by exactly three digit characters with
nonzero value. -/
def childCodeOKb (p a : Account) : Bool :=
  match p.parent_id with
  | none =>
    a.code.length == 4 && strTakeD a.code 1 == strTakeD p.code 1 &&
      isDigitStr (strTakeRightD a.code 3) && (strTakeRightD a.code 3).length == 3 &&
      1 ≤ suffix3Val a.code
  | some _ =>
    a.code.length == p.code.length + 3 && strTakeD a.code p.code.length == p.code &&
      isDigitStr (strTakeRightD a.code 3) && (strTakeRightD a.code 3).length == 3 &&
      1 ≤ suffix3Val a.code

/-- A loose nesting shape, the claim's own wording without any width
bound: a child shares the parent's leading digit (under a root) or has the
parent's whole code as a proper prefix (under a deeper node), the rest
being digits. -/
def childCodeLooseb (p a : Account) : Bool :=
  match p.parent_id with
  | none =>
    4 ≤ a.code.length && strTakeD a.code 1 == strTakeD p.code 1 && isDigitStr a.code
  | some _ =>
    p.code.length + 3 ≤ a.code.length && strTakeD a.code p.code.length == p.code &&
      isDigitStr a.code

/-- The per-row well-formedness that every non-root row's parent resolves
and the child code nests, taking the nesting test as a parameter. -/
def childrenWFb (test : Account → Account → Bool) (s : Store) : Bool :=
  s.all (fun a =>
    match a.parent_id with
    | none => true
    | some pid =>
      match findAcct s pid with
      | none => false
      | some p => test p a)

/-- Pairwise-distinct codes. -/
def NodupCodesb (s : Store) : Bool :=
  nodupB (s.map (fun a => a.code))

/-- The store invariant for the code-generation claim, in the claim's own
loose reading: canonical roots, resolvable parents with scheme-shaped
codes, distinct codes, codes at least four characters long. -/
def CodeInvLooseb (s : Store) : Bool :=
  CanonicalRootsb s && childrenWFb childCodeLooseb s && NodupCodesb s &&
    s.all (fun a => 4 ≤ a.code.length && isDigitStr a.code)

/-- The strict store invariant for the code-generation claim: canonical
roots, resolvable parents with exactly-three-digit-suffix codes, distinct
codes, codes at least four characters long. -/
def CodeInvb (s : Store) : Bool :=
  CanonicalRootsb s && childrenWFb childCodeOKb s && NodupCodesb s &&
    s.all (fun a => 4 ≤ a.code.length && isDigitStr a.code)

/-- No suffix overflow under the given parent: every existing child keeps
a suffix value strictly below 999, so one more sibling still fits. -/
def noOverflowAtb (s : Store) (p : Account) : Bool :=
  (childRows s p.id).all (fun b => suffix3Val b.code ≤ 998)

/-- The code prefix the generation scheme matches children of `q` against:
the leading digit for a root, the whole code for a deeper node. -/
def preOf (q : Account) : List Char :=
  match q.parent_id with
  | none => q.code.data.take 1
  | some _ => q.code.data

/-- A code made of the given prefix followed by exactly three decimal
digits. -/
def Shape3 (pre : List Char) (a : Account) : Prop :=
  ∃ s0 s1 s2, a.code.data = pre ++ [s0, s1, s2] ∧ isDigitChar s0 = true ∧
    isDigitChar s1 = true ∧ isDigitChar s2 = true

/-- The same decomposition on a bare code string. -/
def ShapeS (pre : List Char) (c : String) : Prop :=
  ∃ s0 s1 s2, c.data = pre ++ [s0, s1, s2] ∧ isDigitChar s0 = true ∧
    isDigitChar s1 = true ∧ isDigitChar s2 = true

/-- Every row's root walk resolves (the store is acyclic with no dangling
parent along any reachable chain). -/
def RootResolvesb (s : Store) : Bool :=
  s.all (fun a => (get_root_account s a).isSome)

/-- Combined well-formedness used by the policy-preservation theorems:
canonical roots, distinct ids and resolving root walks. -/
def WFb (s : Store) : Bool :=
  CanonicalRootsb s && NodupIdsb s && RootResolvesb s

/-- The bootstrap postcondition for a single root row: it exists and its
`account_type` and `cc_required` are canonical. -/
def stepOKb (s : Store) (nm tp : String) : Bool :=
  match s.find? (rootPred nm) with
  | some r => r.account_type == some tp && r.cc_required == false
  | none => false

/-- The bootstrap postcondition for all four roots: re-running
`validate_root_accounts` on such a store changes nothing. -/
def Bootstrappedb (s : Store) : Bool :=
  stepOKb s ("Assets") ("balance_sheet") &&
    stepOKb s ("Liability & Equity") ("balance_sheet") &&
    stepOKb s ("Expenses") ("p&l") &&
    stepOKb s ("Revenue") ("p&l")

/-- N-fold iteration of the bootstrap routine. -/
def iterBootstrap : Nat → Store → Store
  | 0, s => s
  | n + 1, s => iterBootstrap n (validate_root_accounts s)

/- ### Concrete fixtures -/

/-- The store produced by bootstrapping an empty table: the four canonical
roots with ids 1 to 4 and codes 1000 to 4000. -/
def rootsStore : Store := validate_root_accounts []

/-- A leaf account under the Assets root. -/
def cashAcct : Account :=
  { id := 5, name := ("Cash"), code := ("1001"), parent_id := some 1,
    nature := some ("debit"), cc_required := false,
    account_type := some ("balance_sheet") }

/-- A child of `cashAcct`, making `cashAcct` an inner node. -/
def pettyAcct : Account :=
  { id := 6, name := ("Petty"), code := ("1001001"), parent_id := some 5,
    nature := some ("debit"), cc_required := false,
    account_type := some ("balance_sheet") }

/-- Roots plus a two-level Assets branch. -/
def treeStore : Store := rootsStore ++ [cashAcct, pettyAcct]

/-- Roots plus the single `cashAcct` leaf. -/
def cashStore : Store := rootsStore ++ [cashAcct]

/-- One journal row debiting and crediting `Cash`. -/
def cashEntries : List DailyEntry :=
  [{ debit := ("Cash"), credit := ("Cash"), debit_amount := 100, credit_amount := 40 }]

/-- An Assets child whose code carries the greatest three-digit suffix. -/
def ovAcct999 : Account :=
  { id := 5, name := ("N999"), code := ("1999"), parent_id := some 1,
    nature := some ("debit"), cc_required := false,
    account_type := some ("balance_sheet") }

/-- The Assets child the generator emits once the suffix has overflowed:
its code is the overflow code `11000`. -/
def ovAcct1000 : Account :=
  { id := 6, name := ("N1000"), code := ("11000"), parent_id := some 1,
    nature := some ("debit"), cc_required := false,
    account_type := some ("balance_sheet") }

/-- A store the generation scheme reaches after the thousandth sibling
under Assets (shown with the two relevant siblings): the next generated
code collides with the overflow code already present. -/
def ovStore : Store := rootsStore ++ [ovAcct999, ovAcct1000]

/-- The cost-center default `fill_new_account_info` computes for a new
account when the caller did not request `cc_required = true`: set exactly
when the resolved root is the `Expenses` root and the name carries no
`depreciation` or `bank charges` keyword, or when the name carries a
`cost of goods sold` or `rebate` keyword, all matched case-insensitively. -/
def ccDefault (r : Account) (name : String) : Bool :=
  (r.name == ("Expenses") && !strContainsB (pyLower name) ("depreciation") &&
      !strContainsB (pyLower name) ("bank charges")) ||
    strContainsB (pyLower name) ("cost of goods sold") ||
    strContainsB (pyLower name) ("rebate")

/-- The `account_type` inference of `fill_new_account_info` from the
resolved root when the caller supplied none. -/
def inferredType (r : Account) (account_type : Option String) : Option String :=
  if account_type == none then
    if r.name == ("Assets") || r.name == ("Liability & Equity") then
      some ("balance_sheet")
    else if r.name == ("Revenue") || r.name == ("Expenses") then some ("p&l")
    else none
  else account_type

/-- The shape of a root row the bootstrap inserts. -/
def mkRoot (i : Nat) (nm cd nat tp : String) : Account :=
  { id := i, name := nm, code := cd, parent_id := none, nature := some nat,
    cc_required := false, account_type := some tp }

/-- The canonical Assets root row as bootstrapped into `rootsStore`. -/
def assetsRoot : Account :=
  { id := 1, name := ("Assets"), code := ("1000"), parent_id := none,
    nature := some ("debit"), cc_required := false,
    account_type := some ("balance_sheet") }

/-- The `Cash` row after an update clears its `account_type` to null. -/
def clearedCash : Account := { cashAcct with account_type := none }

/-- `cashStore` after the type-clearing update committed. -/
def clearedCashStore : Store := rootsStore ++ [clearedCash]

/-- The row created for `Bank` under Assets once `Cash` holds code 1001. -/
def bankAcct : Account :=
  { id := 6, name := ("Bank"), code := ("1002"), parent_id := some 1,
    nature := some ("debit"), cc_required := false,
    account_type := some ("balance_sheet") }

/-- The row created for `Petty` under `Cash` (code 1001): the parent code
concatenated with a fresh three-digit suffix. -/
def pettyDeep : Account :=
  { id := 6, name := ("Petty"), code := ("1001001"), parent_id := some 5,
    nature := some ("debit"), cc_required := false,
    account_type := some ("balance_sheet") }

/-- The row a further creation under Assets inserts into `ovStore`: its
generated code repeats the overflow code already in the table. -/
def dupAcct : Account :=
  { id := 7, name := ("Dup"), code := ("11000"), parent_id := some 1,
    nature := some ("debit"), cc_required := false,
    account_type := some ("balance_sheet") }

/-- A creation request whose name carries the `rebate` keyword, under the
Assets root. -/
def vrBody : CreateBody := { name := ("Volume Rebate"), parent_id := some 1 }

/-- The row `vrBody` creates on `rootsStore`. -/
def vrAcct : Account :=
  { id := 5, name := ("Volume Rebate"), code := ("1001"), parent_id := some 1,
    nature := some ("debit"), cc_required := true,
    account_type := some ("balance_sheet") }

/- ### Helper lemmas on the store primitives -/

theorem modifyFirst_of_find_none {p : Account → Bool} {f : Account → Account} :
    ∀ {s : Store}, s.find? p = none → modifyFirst p f s = s
  | [], _ => rfl
  | a :: as, h => by
    by_cases hpa : p a
    · simp [List.find?, hpa] at h
    · simp only [List.find?, hpa] at h
      simp only [modifyFirst, hpa, Bool.false_eq_true, if_false]
      rw [modifyFirst_of_find_none h]

theorem modifyFirst_eq_self {p : Account → Bool} {f : Account → Account} :
    ∀ {s : Store} {a : Account}, s.find? p = some a → f a = a → modifyFirst p f s = s
  | [], a, h, _ => by simp [List.find?] at h
  | b :: bs, a, h, hfa => by
    by_cases hpb : p b
    · rw [List.find?_cons_of_pos _ hpb] at h
      cases h
      simp [modifyFirst, hpb, hfa]
    · rw [List.find?_cons_of_neg _ hpb] at h
      simp only [modifyFirst, hpb, Bool.false_eq_true, if_false]
      rw [modifyFirst_eq_self h hfa]

theorem find?_modifyFirst_same {p : Account → Bool} {f : Account → Account}
    (hp : ∀ x, p x = true → p (f x) = true) :
    ∀ {s : Store} {a : Account}, s.find? p = some a →
      (modifyFirst p f s).find? p = some (f a)
  | [], a, h => by simp [List.find?] at h
  | b :: bs, a, h => by
    by_cases hpb : p b
    · rw [List.find?_cons_of_pos _ hpb] at h
      cases h
      simp [modifyFirst, hpb, List.find?_cons_of_pos _ (hp _ hpb)]
    · rw [List.find?_cons_of_neg _ hpb] at h
      simp only [modifyFirst, hpb, Bool.false_eq_true, if_false]
      rw [List.find?_cons_of_neg _ hpb]
      exact find?_modifyFirst_same hp h

theorem find?_modifyFirst_disjoint {p q : Account → Bool} {f : Account → Account}
    (hd : ∀ x, q x = true → p x = false) (hf : ∀ x, p (f x) = p x) :
    ∀ (s : Store), (modifyFirst q f s).find? p = s.find? p
  | [] => rfl
  | b :: bs => by
    by_cases hqb : q b
    · simp only [modifyFirst, hqb, if_true]
      have hpb : p b = false := hd b hqb
      rw [List.find?_cons_of_neg, List.find?_cons_of_neg]
      · simp [hpb]
      · simp [hf, hpb]
    · simp only [modifyFirst, hqb, Bool.false_eq_true, if_false]
      by_cases hpb : p b
      · rw [List.find?_cons_of_pos _ hpb, List.find?_cons_of_pos _ hpb]
      · rw [List.find?_cons_of_neg _ hpb, List.find?_cons_of_neg _ hpb]
        exact find?_modifyFirst_disjoint hd hf bs

theorem rootNamesOf_modifyFirst {q : Account → Bool} {f : Account → Account}
    (hf : ∀ x, (f x).name = x.name ∧ (f x).parent_id = x.parent_id) :
    ∀ (s : Store), rootNamesOf (modifyFirst q f s) = rootNamesOf s
  | [] => rfl
  | b :: bs => by
    by_cases hqb : q b
    · simp only [modifyFirst, hqb, if_true]
      simp only [rootNamesOf, rootRows, List.filter_cons, (hf b).1, (hf b).2]
      by_cases hb : b.parent_id == none
      · simp [hb, (hf b).1]
      · simp [hb]
    · simp only [modifyFirst, hqb, Bool.false_eq_true, if_false]
      simp only [rootNamesOf, rootRows, List.filter_cons]
      by_cases hb : b.parent_id == none
      · simp only [hb, if_true, List.map_cons]
        have := rootNamesOf_modifyFirst (q := q) hf bs
        simp only [rootNamesOf, rootRows] at this
        rw [this]
      · simp only [hb, Bool.false_eq_true, if_false]
        have := rootNamesOf_modifyFirst (q := q) hf bs
        simp only [rootNamesOf, rootRows] at this
        rw [this]

theorem rootNamesOf_append (s t : Store) :
    rootNamesOf (s ++ t) = rootNamesOf s ++ rootNamesOf t := by
  simp [rootNamesOf, rootRows, List.filter_append]

theorem find?_rootPred_of_mem_rootNames {s : Store} {nm : String}
    (h : nm ∈ rootNamesOf s) : ∃ r, s.find? (rootPred nm) = some r := by
  simp only [rootNamesOf, rootRows, List.mem_map, List.mem_filter] at h
  obtain ⟨x, ⟨hx, hroot⟩, hnm⟩ := h
  have : ∃ y, y ∈ s ∧ rootPred nm y = true := ⟨x, hx, by simp [rootPred, hnm, hroot]⟩
  rw [← List.find?_isSome] at this
  cases hfind : s.find? (rootPred nm) with
  | none => rw [hfind] at this; simp at this
  | some r => exact ⟨r, rfl⟩

theorem canonRoot_preserves_name_parent (tp : String) :
    ∀ x, (canonRoot tp x).name = x.name ∧ (canonRoot tp x).parent_id = x.parent_id :=
  fun _ => ⟨rfl, rfl⟩

theorem rootNamesOf_bootstrapStep_of_found {s : Store} {nm nat tp : String}
    (h : (s.find? (rootPred nm)).isSome) :
    rootNamesOf (bootstrapStep s nm nat tp) = rootNamesOf s := by
  cases hfind : s.find? (rootPred nm) with
  | none => rw [hfind] at h; simp at h
  | some r =>
    simp only [bootstrapStep, hfind]
    exact rootNamesOf_modifyFirst (canonRoot_preserves_name_parent tp) s

/- ### Claim C5 -/

/-- C5: deleting an account that has at least one child always fails with
the usage-conflict error and changes no state (on an error the session
closes without a delete, which the `Except` result models); deleting an
account with no children, no journal entry matching its name as debit or
credit, and no sales, purchase or expense transaction reference succeeds,
removes the row, and returns its last representation; and each blocking
reason, checked independently in the source's order, surfaces as its own
distinct error message. -/
theorem C5_delete_blocking_and_success
    (s : Store) (entries : List DailyEntry) (sales purch expn : List TxRef)
    (i : Nat) (a : Account) (hfind : findAcct s i = some a) :
    (s.countP (fun x => x.parent_id == some a.id) > 0 →
      delete_account s entries sales purch expn i =
        .error (.badRequest ("Account with id [" ++ toString i ++
          ("] is a parent account and cannot be deleted")))) ∧
    (s.countP (fun x => x.parent_id == some a.id) = 0 →
      entries.countP (fun e => e.debit == a.name || e.credit == a.name) = 0 →
      sales.countP (fun t => t.account_id == a.id) = 0 →
      purch.countP (fun t => t.account_id == a.id) = 0 →
      expn.countP (fun t => t.account_id == a.id) = 0 →
      delete_account s entries sales purch expn i =
        .ok (eraseFirstP (fun x => x.id == i) s, a)) ∧
    (s.countP (fun x => x.parent_id == some a.id) = 0 →
      entries.countP (fun e => e.debit == a.name || e.credit == a.name) > 0 →
      delete_account s entries sales purch expn i =
        .error (.badRequest ("Account with name [" ++ a.name ++
          ("] has been used in transactions so cannot be deleted")))) ∧
    (s.countP (fun x => x.parent_id == some a.id) = 0 →
      entries.countP (fun e => e.debit == a.name || e.credit == a.name) = 0 →
      sales.countP (fun t => t.account_id == a.id) > 0 →
      delete_account s entries sales purch expn i =
        .error (.badRequest ("Account with id [" ++ toString i ++ ("] is referenced by ") ++
          toString (sales.countP (fun t => t.account_id == a.id)) ++
          (" sales transactions and cannot be deleted")))) ∧
    (s.countP (fun x => x.parent_id == some a.id) = 0 →
      entries.countP (fun e => e.debit == a.name || e.credit == a.name) = 0 →
      sales.countP (fun t => t.account_id == a.id) = 0 →
      purch.countP (fun t => t.account_id == a.id) > 0 →
      delete_account s entries sales purch expn i =
        .error (.badRequest ("Account with id [" ++ toString i ++ ("] is referenced by ") ++
          toString (purch.countP (fun t => t.account_id == a.id)) ++
          (" purchase transactions and cannot be deleted")))) ∧
    (s.countP (fun x => x.parent_id == some a.id) = 0 →
      entries.countP (fun e => e.debit == a.name || e.credit == a.name) = 0 →
      sales.countP (fun t => t.account_id == a.id) = 0 →
      purch.countP (fun t => t.account_id == a.id) = 0 →
      expn.countP (fun t => t.account_id == a.id) > 0 →
      delete_account s entries sales purch expn i =
        .error (.badRequest ("Account with id [" ++ toString i ++ ("] is referenced by ") ++
          toString (expn.countP (fun t => t.account_id == a.id)) ++
          (" expense transactions and cannot be deleted")))) := by
  refine ⟨?_, ?_, ?_, ?_, ?_, ?_⟩
  · intro hc
    simp only [delete_account, hfind]
    rw [if_pos hc]
  · intro hc he hs hp hx
    simp only [delete_account, hfind, hc, he, hs, hp, hx]
    simp
  · intro hc he
    simp only [delete_account, hfind, hc]
    simp only [gt_iff_lt, Nat.lt_irrefl, if_false]
    rw [if_pos he]
  · intro hc he hs
    simp only [delete_account, hfind, hc, he]
    simp only [gt_iff_lt, Nat.lt_irrefl, if_false]
    rw [if_pos hs]
  · intro hc he hs hp
    simp only [delete_account, hfind, hc, he, hs]
    simp only [gt_iff_lt, Nat.lt_irrefl, if_false]
    rw [if_pos hp]
  · intro hc he hs hp hx
    simp only [delete_account, hfind, hc, he, hs, hp]
    simp only [gt_iff_lt, Nat.lt_irrefl, if_false]
    rw [if_pos hx]

/-- C5 witness: on the bootstrapped store with the Cash leaf present, a
delete of the inner Assets branch node is blocked, and a delete of the
unreferenced Cash leaf succeeds and removes exactly that row. -/
theorem C5_delete_blocking_and_success_witness :
    delete_account treeStore [] [] [] [] 5 =
      .error (.badRequest ("Account with id [" ++ toString 5 ++
        ("] is a parent account and cannot be deleted"))) ∧
    delete_account cashStore cashEntries [] [] [] 4 =
      .ok (eraseFirstP (fun x => x.id == 4) cashStore,
        { id := 4, name := ("Revenue"), code := ("4000"), parent_id := none,
          nature := some ("credit"), cc_required := false,
          account_type := some ("p&l") }) := by
  constructor
  · exact (C5_delete_blocking_and_success treeStore [] [] [] [] 5 cashAcct
      (by decide)).1 (by decide)
  · exact ((C5_delete_blocking_and_success cashStore cashEntries [] [] [] 4
      { id := 4, name := ("Revenue"), code := ("4000"), parent_id := none,
        nature := some ("credit"), cc_required := false,
        account_type := some ("p&l") } (by decide)).2.1)
      (by decide) (by decide) (by decide) (by decide) (by decide)

/- ### Claim C10 -/

/-- C10: an update whose name field is non-empty and equals the current
name up to letter case (while differing from it) leaves the stored name
unchanged, records no name change, returns the no-changes result when no
other field is supplied, and consults neither the journal-usage check nor
the name-collision check: the result is the same for every journal and
transaction table, so the capitalisation of a name can never be changed
through the update path. -/
theorem C10_case_only_rename_noop
    (s : Store) (entries : List DailyEntry) (purch expn : List TxRef)
    (i : Nat) (a : Account) (n : String)
    (hfind : findAcct s i = some a)
    (hne : pyStrip n ≠ "")
    (hcase : pyLower (pyStrip n) = pyLower a.name)
    (hdiff : pyStrip n ≠ a.name) :
    update_account s entries purch expn i { name := some n } =
      .ok (s, ("No changes detected")) := by
  simp only [update_account, hfind, updateNameStage, hcase]
  rw [if_neg (by simp [hne])]
  rw [if_neg (by simp)]
  simp [updateCcStage, updateTypeStage]

/-- C10 witness: renaming `Cash` to `CASH` is a recorded no-op even while
a journal row references `Cash`. -/
theorem C10_case_only_rename_noop_witness :
    update_account cashStore cashEntries [] [] 5 { name := some ("CASH") } =
      .ok (cashStore, ("No changes detected")) :=
  C10_case_only_rename_noop cashStore cashEntries [] [] 5 cashAcct ("CASH")
    (by decide) (by decide) (by decide) (by decide)

/- ### Claim C6 -/

/-- C6: a genuine rename (new non-empty name differing from the current
one beyond letter case) of an account whose current name appears,
case-sensitively, as debit or credit of any journal entry always fails
with no state change; with no such journal entry it succeeds exactly when
the new name does not collide case-insensitively with an existing
account's name, storing the new name byte-for-byte, and fails with
`AccountExists` (no state change) when it does collide. -/
theorem C6_rename_guard
    (s : Store) (entries : List DailyEntry) (purch expn : List TxRef)
    (i : Nat) (a : Account) (n : String)
    (hfind : findAcct s i = some a)
    (hne : pyStrip n ≠ "")
    (hcasediff : pyLower (pyStrip n) ≠ pyLower a.name) :
    (entries.countP (fun e => e.debit == a.name || e.credit == a.name) > 0 →
      update_account s entries purch expn i { name := some n } =
        .error (.badRequest ("Account with name [" ++ a.name ++
          ("] has existing transactions and cannot modify its name")))) ∧
    (entries.countP (fun e => e.debit == a.name || e.credit == a.name) = 0 →
      check_if_account_exist s (pyStrip n) = false →
      update_account s entries purch expn i { name := some n } =
        .ok (modifyFirst (fun x => x.id == i) (fun _ => { a with name := pyStrip n }) s,
          ("Account updated successfully. Changed fields: name")) ∧
      findAcct (modifyFirst (fun x => x.id == i) (fun _ => { a with name := pyStrip n }) s) i =
        some { a with name := pyStrip n }) ∧
    (entries.countP (fun e => e.debit == a.name || e.credit == a.name) = 0 →
      check_if_account_exist s (pyStrip n) = true →
      update_account s entries purch expn i { name := some n } =
        .error (.accountExists ("Account with name [" ++ pyStrip n ++
          ("] already exists")))) := by
  have hni : (pyLower a.name != pyLower (pyStrip n)) = true := by
    simp only [bne_iff_ne, ne_eq]
    exact fun h => hcasediff h.symm
  refine ⟨?_, ?_, ?_⟩
  · intro hcnt
    simp only [update_account, hfind, updateNameStage]
    rw [if_neg (by simp [hne]), if_pos hni, if_pos hcnt]
  · intro hcnt hcol
    constructor
    · simp only [update_account, hfind, updateNameStage]
      rw [if_neg (by simp [hne]), if_pos hni]
      rw [if_neg (by simp [hcnt]), if_neg (by simp [hcol])]
      simp [updateCcStage, updateTypeStage]
      rfl
    · have haid : (a.id == i) = true := by
        have := List.find?_some hfind
        simpa using this
      exact find?_modifyFirst_same (by simp [haid]) hfind
  · intro hcnt hcol
    simp only [update_account, hfind, updateNameStage]
    rw [if_neg (by simp [hne]), if_pos hni]
    rw [if_neg (by simp [hcnt]), if_pos (by simp [hcol])]

/-- C6 witness: with `Cash` referenced by a journal row its rename to
`Till` fails with the usage error; with no journal rows the same rename
succeeds and stores `Till`, while renaming `Petty` to `cash` fails with
`AccountExists`. -/
theorem C6_rename_guard_witness :
    update_account cashStore cashEntries [] [] 5 { name := some ("Till") } =
      .error (.badRequest ("Account with name [" ++ ("Cash") ++
        ("] has existing transactions and cannot modify its name"))) ∧
    update_account cashStore [] [] [] 5 { name := some ("Till") } =
      .ok (modifyFirst (fun x => x.id == 5) (fun _ => { cashAcct with name := ("Till") }) cashStore,
        ("Account updated successfully. Changed fields: name")) ∧
    update_account treeStore [] [] [] 6 { name := some ("cash") } =
      .error (.accountExists ("Account with name [" ++ ("cash") ++ ("] already exists"))) := by
  refine ⟨?_, ?_, ?_⟩
  · exact (C6_rename_guard cashStore cashEntries [] [] 5 cashAcct ("Till")
      (by decide) (by decide) (by decide)).1 (by decide)
  · exact (((C6_rename_guard cashStore [] [] [] 5 cashAcct ("Till")
      (by decide) (by decide) (by decide)).2.1) (by decide) (by decide)).1
  · exact (C6_rename_guard treeStore [] [] [] 6 pettyAcct ("cash")
      (by decide) (by decide) (by decide)).2.2 (by decide) (by decide)

/- ### Claim C8 -/

/-- C8: on update, setting `account_type` to `balance_sheet` is rejected
as a validation error with no state change unless the account's root is
`Assets` or `Liability & Equity` (in particular it is rejected on an
account rooted at `Revenue`), setting it to `p&l` is rejected unless the
root is `Revenue` or `Expenses`, and clearing it to null always succeeds
for every account, the stored type becoming null.  The rejection
hypotheses require the stored type to differ from the requested one, which
is the only situation the source validates; on policy-consistent stores a
mismatching root always implies that difference. -/
theorem C8_account_type_validation
    (s : Store) (entries : List DailyEntry) (purch expn : List TxRef)
    (i : Nat) (a : Account) (r : Account)
    (hfind : findAcct s i = some a)
    (hroot : get_root_account s a = some r) :
    (a.account_type ≠ some ("balance_sheet") →
      r.name ≠ ("Assets") → r.name ≠ ("Liability & Equity") →
      update_account s entries purch expn i { account_type := some (some ("balance_sheet")) } =
        .error (.badRequest ("Cannot set account type to balance_sheet for accounts under [" ++
          r.name ++ ("]")))) ∧
    (a.account_type ≠ some ("p&l") →
      r.name ≠ ("Revenue") → r.name ≠ ("Expenses") →
      update_account s entries purch expn i { account_type := some (some ("p&l")) } =
        .error (.badRequest ("Cannot set account type to p&l for accounts under [" ++
          r.name ++ ("]")))) ∧
    (∃ s' m, update_account s entries purch expn i { account_type := some none } =
        .ok (s', m) ∧
      findAcct s' i = some { a with account_type := none }) := by
  have haid : (a.id == i) = true := by
    have := List.find?_some hfind
    simpa using this
  have hps : pyStrip ("balance_sheet") = ("balance_sheet") := rfl
  have hpl : pyStrip ("p&l") = ("p&l") := rfl
  refine ⟨?_, ?_, ?_⟩
  · intro hne h1 h2
    simp only [update_account, hfind, updateNameStage, updateCcStage, updateTypeStage,
      hps, hroot]
    rw [if_neg (by decide), if_pos (by simpa [bne_iff_ne] using hne)]
    rw [if_pos (by simp [h1, h2])]
  · intro hne h1 h2
    simp only [update_account, hfind, updateNameStage, updateCcStage, updateTypeStage,
      hpl, hroot]
    rw [if_neg (by decide), if_pos (by simpa [bne_iff_ne] using hne)]
    rw [if_neg (by simp), if_pos (by simp [h1, h2])]
  · by_cases h : a.account_type = none
    · refine ⟨s, ("No changes detected"), ?_, ?_⟩
      · simp only [update_account, hfind, updateNameStage, updateCcStage, updateTypeStage]
        rw [if_neg (by simp [h])]
        simp
      · rw [hfind]
        congr 1
        cases a
        simp_all
    · refine ⟨modifyFirst (fun x => x.id == i)
        (fun _ => { a with account_type := none }) s,
        ("Account updated successfully. Changed fields: account type"), ?_, ?_⟩
      · simp only [update_account, hfind, updateNameStage, updateCcStage, updateTypeStage]
        rw [if_pos (by simp [bne_iff_ne, h])]
        simp
        rfl
      · exact find?_modifyFirst_same (by simp [haid]) hfind

/-- C8 witness: on the bootstrapped store, setting `balance_sheet` on the
account rooted at `Revenue` is rejected, setting `p&l` on one rooted at
`Assets` is rejected, and clearing the type of the Assets root succeeds. -/
theorem C8_account_type_validation_witness :
    update_account rootsStore [] [] [] 4 { account_type := some (some ("balance_sheet")) } =
      .error (.badRequest ("Cannot set account type to balance_sheet for accounts under [" ++
        ("Revenue") ++ ("]"))) ∧
    update_account rootsStore [] [] [] 1 { account_type := some (some ("p&l")) } =
      .error (.badRequest ("Cannot set account type to p&l for accounts under [" ++
        ("Assets") ++ ("]"))) ∧
    (∃ s' m, update_account rootsStore [] [] [] 1 { account_type := some none } =
        .ok (s', m) ∧
      findAcct s' 1 =
        some { id := 1, name := ("Assets"), code := ("1000"), parent_id := none,
               nature := some ("debit"), cc_required := false,
               account_type := none }) := by
  have h4 := C8_account_type_validation rootsStore [] [] [] 4
    { id := 4, name := ("Revenue"), code := ("4000"), parent_id := none,
      nature := some ("credit"), cc_required := false, account_type := some ("p&l") }
    { id := 4, name := ("Revenue"), code := ("4000"), parent_id := none,
      nature := some ("credit"), cc_required := false, account_type := some ("p&l") }
    (by decide) (by decide)
  have h1 := C8_account_type_validation rootsStore [] [] [] 1
    { id := 1, name := ("Assets"), code := ("1000"), parent_id := none,
      nature := some ("debit"), cc_required := false, account_type := some ("balance_sheet") }
    { id := 1, name := ("Assets"), code := ("1000"), parent_id := none,
      nature := some ("debit"), cc_required := false, account_type := some ("balance_sheet") }
    (by decide) (by decide)
  exact ⟨h4.1 (by decide) (by decide) (by decide),
    h1.2.1 (by decide) (by decide) (by decide), h1.2.2⟩

/- ### Claim C7 -/

/-- The normal form of a successful `extract_body`. -/
theorem extract_body_ok {body : CreateBody}
    {t : String × Option Nat × Option String × Bool × Option String}
    (h : extract_body body = .ok t) :
    t = (pyStrip body.name, body.parent_id,
      body.nature.map (fun x => pyLower (pyStrip x)), body.cc_required,
      body.account_type) := by
  simp only [extract_body] at h
  split at h
  · cases h
  · split at h
    · cases h
    · cases h
      rfl

/-- The value `fill_new_account_info` produces when the caller did not
request `cc_required = true`: the generated code, the parent link, the
pass-through nature, the root-derived `account_type` inference and the
name-and-root-driven cost-center default. -/
theorem fill_new_account_info_eq {s : Store} {parent r : Account}
    (hroot : get_root_account s parent = some r)
    (name : String) (nature account_type : Option String) (cc : Bool) :
    fill_new_account_info s name nature parent cc account_type =
      .ok { id := 0, name := name, code := generate_code s (some parent),
            parent_id := some parent.id, nature := nature,
            cc_required := if cc == false then ccDefault r name else cc,
            account_type := inferredType r account_type } := by
  simp only [fill_new_account_info, hroot, ccDefault, inferredType]
  refine congrArg Except.ok ?_
  have hat : (if account_type == none then
      if r.name == ("Assets") || r.name == ("Liability & Equity") then
        some ("balance_sheet")
      else if r.name == ("Revenue") || r.name == ("Expenses") then some ("p&l")
      else account_type
    else account_type) =
      (if account_type == none then
      if r.name == ("Assets") || r.name == ("Liability & Equity") then
        some ("balance_sheet")
      else if r.name == ("Revenue") || r.name == ("Expenses") then some ("p&l")
      else none
    else account_type) := by
    cases hata : account_type with
    | none => simp
    | some t => simp
  rw [hat]
  cases hcc : cc <;>
    cases hexp : r.name == ("Expenses") <;>
    cases hdep : strContainsB (pyLower name) ("depreciation") <;>
    cases hbank : strContainsB (pyLower name) ("bank charges") <;>
    cases hcogs : strContainsB (pyLower name) ("cost of goods sold") <;>
    cases hreb : strContainsB (pyLower name) ("rebate") <;>
    simp [hexp, hdep, hbank, hcogs, hreb]

/-- The caller-did-not-ask case of `fill_new_account_info_eq`. -/
theorem fill_new_account_info_eq_false {s : Store} {parent r : Account}
    (hroot : get_root_account s parent = some r)
    (name : String) (nature account_type : Option String) :
    fill_new_account_info s name nature parent false account_type =
      .ok { id := 0, name := name, code := generate_code s (some parent),
            parent_id := some parent.id, nature := nature,
            cc_required := ccDefault r name,
            account_type := inferredType r account_type } := by
  rw [fill_new_account_info_eq hroot name nature account_type false]
  simp

/-- C7: an account created without an explicit `cc_required = true` gets
`cc_required = true` exactly when its root ancestor is the `Expenses` root
and its name contains neither `depreciation` nor `bank charges`
(case-insensitive substring match), or its name contains
`cost of goods sold` or `rebate` regardless of root; otherwise it stays
false.  In particular `Rent Expense` under `Expenses` is created with
`cc_required = true` and `Depreciation Expense` with `cc_required =
false`. -/
theorem C7_cc_required_defaulting
    (s s₂ : Store) (body : CreateBody) (pid : Nat) (parent r a : Account)
    (hcc : body.cc_required = false)
    (hpid : body.parent_id = some pid)
    (hpar : findAcct (validate_root_accounts s) pid = some parent)
    (hroot : get_root_account (validate_root_accounts s) parent = some r)
    (hok : create_account_in_account_tree s body = (s₂, .ok a)) :
    (a.cc_required = ccDefault r (pyStrip body.name)) ∧
    (create_account_in_account_tree rootsStore
        { name := ("Rent Expense"), parent_id := some 3 }).2.toOption.map
      (fun x => x.cc_required) = some true ∧
    (create_account_in_account_tree rootsStore
        { name := ("Depreciation Expense"), parent_id := some 3 }).2.toOption.map
      (fun x => x.cc_required) = some false := by
  refine ⟨?_, by decide, by decide⟩
  simp only [create_account_in_account_tree] at hok
  cases hex : extract_body body with
  | error e => rw [hex] at hok; simp at hok
  | ok t =>
    obtain ⟨nm, pidv, natv, ccv, atv⟩ := t
    have ht := extract_body_ok hex
    simp only [Prod.mk.injEq] at ht
    obtain ⟨hnm, hpidv, hnat, hccv, hatv⟩ := ht
    rw [hex] at hok
    simp only [hpidv, hpid, hccv, hcc, hpar, hroot] at hok
    simp only [finishCreate, fill_new_account_info_eq_false hroot] at hok
    repeat' split at hok
    all_goals
      first
      | (simp at hok
         done)
      | (simp only [Prod.mk.injEq, Except.ok.injEq] at hok
         rw [← hok.2, hnm]
         try rfl)

/- ### Claim C2 -/

/-- Sums distribute over a flattened list of lists. -/
theorem sum_map_flatten (L : List (List Account)) (f : Account → Int) :
    ((L.flatten).map f).sum = (L.map (fun l => (l.map f).sum)).sum := by
  induction L with
  | nil => rfl
  | cons l ls ih =>
    simp only [List.flatten_cons, List.map_append, List.sum_append, List.map_cons,
      List.sum_cons, ih]

/-- The rollup totals of one account equal the sums of own amounts over
the account and all its visited descendants, at every fuel. -/
theorem compute_totals_eq_subtree_sum (s : Store) (es : List DailyEntry) :
    ∀ (fuel : Nat) (a : Account),
      (compute_account_totals s es fuel a).debit_amount =
          ((subtree_accounts s fuel a).map (own_debit es)).sum ∧
        (compute_account_totals s es fuel a).credit_amount =
          ((subtree_accounts s fuel a).map (own_credit es)).sum
  | 0, a => by simp [compute_account_totals, subtree_accounts]
  | fuel + 1, a => by
    constructor
    · simp only [compute_account_totals, subtree_accounts, List.map_cons, List.sum_cons]
      rw [sum_map_flatten]
      congr 1
      rw [List.map_map, List.map_map]
      refine congrArg List.sum (List.map_congr_left (fun c _ => ?_))
      exact (compute_totals_eq_subtree_sum s es fuel c).1
    · simp only [compute_account_totals, subtree_accounts, List.map_cons, List.sum_cons]
      rw [sum_map_flatten]
      congr 1
      rw [List.map_map, List.map_map]
      refine congrArg List.sum (List.map_congr_left (fun c _ => ?_))
      exact (compute_totals_eq_subtree_sum s es fuel c).2

/-- C2 counterexample to the claim as stated: on the bootstrapped store
with `Cash` (an inner node, since `Petty` is its child) and one journal
row debiting `Cash` by 100, `GetTree` reports a grand total debit of 100
while the sum of the leaf accounts' own debits is 0. -/
theorem C2_leaf_sum_counterexample :
    (get_account_tree treeStore cashEntries).grand_total_debit = 100 ∧
    ((leaves_of treeStore).map (own_debit cashEntries)).sum = 0 ∧
    (get_account_tree treeStore cashEntries).grand_total_debit ≠
      ((leaves_of treeStore).map (own_debit cashEntries)).sum := by
  refine ⟨by decide, by decide, by decide⟩

/-- C2 amended: for every store and journal distribution, the
`grand_total_debit` and `grand_total_credit` of `GetTree` equal the sums
of own debit and own credit over every account the walk visits (each root
and all its descendants, not only the leaves), where an account's own
amounts sum the journal entries whose debit resp. credit name
string-equals the account's name; and the read is a pure operation, so a
repeated read with no write in between returns the identical result. -/
theorem C2_grand_totals_forest (s : Store) (entries : List DailyEntry) :
    (get_account_tree s entries).grand_total_debit =
        ((forest_accounts s).map (own_debit entries)).sum ∧
      (get_account_tree s entries).grand_total_credit =
        ((forest_accounts s).map (own_credit entries)).sum ∧
      (read_tree_op s entries).1 = s ∧
      (read_tree_op (read_tree_op s entries).1 entries).2 =
        (read_tree_op s entries).2 := by
  refine ⟨?_, ?_, rfl, rfl⟩
  · simp only [get_account_tree, forest_accounts]
    rw [sum_map_flatten]
    rw [List.map_map, List.map_map]
    refine congrArg List.sum (List.map_congr_left (fun r _ => ?_))
    exact (compute_totals_eq_subtree_sum s entries s.length r).1
  · simp only [get_account_tree, forest_accounts]
    rw [sum_map_flatten]
    rw [List.map_map, List.map_map]
    refine congrArg List.sum (List.map_congr_left (fun r _ => ?_))
    exact (compute_totals_eq_subtree_sum s entries s.length r).2

/- ### Claim C1 -/

/-- A successful `fill_new_account_info` links the new row to the given
parent. -/
theorem fill_parent_id {s : Store} {name : String} {nature account_type : Option String}
    {parent : Account} {cc : Bool} {a0 : Account}
    (h : fill_new_account_info s name nature parent cc account_type = .ok a0) :
    a0.parent_id = some parent.id := by
  simp only [fill_new_account_info] at h
  split at h
  · cases h
  · cases h
    rfl

/-- The store a creation returns is the bootstrapped table, possibly
extended by one non-root row. -/
theorem create_store_shape (s : Store) (body : CreateBody) :
    (create_account_in_account_tree s body).1 = validate_root_accounts s ∨
    ∃ a, (create_account_in_account_tree s body).1 = validate_root_accounts s ++ [a] ∧
      a.parent_id ≠ none := by
  simp only [create_account_in_account_tree]
  repeat' split
  all_goals try (left; rfl)
  all_goals
    simp only [finishCreate]
    cases hfill : fill_new_account_info (validate_root_accounts s) _ _ _ _ _ with
    | error e => left; rfl
    | ok a0 =>
      right
      refine ⟨_, rfl, ?_⟩
      rw [fill_parent_id hfill]
      simp

/-- Bootstrapping a store that already holds the four named roots only
re-canonicalises fields and keeps the root name list unchanged. -/
theorem rootNames_validate_of_rootsOK {s : Store} (h : RootsOKb s = true) :
    rootNamesOf (validate_root_accounts s) = rootNamesOf s := by
  have hnames : rootNamesOf s =
      [("Assets"), ("Liability & Equity"), ("Expenses"), ("Revenue")] := by
    simpa [RootsOKb] using h
  have step : ∀ (t : Store) (nm nat tp : String), nm ∈ rootNamesOf t →
      rootNamesOf (bootstrapStep t nm nat tp) = rootNamesOf t := by
    intro t nm nat tp hmem
    obtain ⟨r, hr⟩ := find?_rootPred_of_mem_rootNames hmem
    exact rootNamesOf_bootstrapStep_of_found (by rw [hr]; rfl)
  simp only [validate_root_accounts]
  have h1 := step s ("Assets") ("debit") ("balance_sheet") (by rw [hnames]; simp)
  have h2 := step _ ("Liability & Equity") ("credit") ("balance_sheet")
    (by rw [h1, hnames]; simp)
  have h3 := step _ ("Expenses") ("debit") ("p&l") (by rw [h2, h1, hnames]; simp)
  have h4 := step _ ("Revenue") ("credit") ("p&l") (by rw [h3, h2, h1, hnames]; simp)
  rw [h4, h3, h2, h1]

/-- A successful `updateCcStage` only rewrites the cost-center flag. -/
theorem updateCcStage_shape {purch expn : List TxRef} {uf : UpdateFields}
    {acct a' : Account} {ch ch' : List String}
    (h : updateCcStage purch expn uf acct ch = .ok (a', ch')) :
    a'.name = acct.name ∧ a'.parent_id = acct.parent_id ∧
      a'.id = acct.id ∧ a'.nature = acct.nature ∧
      a'.account_type = acct.account_type := by
  simp only [updateCcStage] at h
  repeat' split at h
  all_goals cases h
  all_goals simp

/-- A successful `updateTypeStage` only rewrites the account type. -/
theorem updateTypeStage_shape {s : Store} {uf : UpdateFields}
    {acct a' : Account} {ch ch' : List String}
    (h : updateTypeStage s uf acct ch = .ok (a', ch')) :
    a'.name = acct.name ∧ a'.parent_id = acct.parent_id ∧
      a'.id = acct.id ∧ a'.nature = acct.nature ∧
      a'.cc_required = acct.cc_required := by
  simp only [updateTypeStage] at h
  repeat' split at h
  all_goals cases h
  all_goals simp

/-- Replacing the first matched row with one carrying the same name and
parent keeps the root name list unchanged. -/
theorem rootNamesOf_modifyFirst_replace {p : Account → Bool} {b : Account} :
    ∀ {s : Store} {a : Account}, s.find? p = some a →
      b.name = a.name → b.parent_id = a.parent_id →
      rootNamesOf (modifyFirst p (fun _ => b) s) = rootNamesOf s
  | [], a, h, _, _ => by simp [List.find?] at h
  | c :: cs, a, h, hn, hp => by
    by_cases hpc : p c
    · rw [List.find?_cons_of_pos _ hpc] at h
      cases h
      simp only [modifyFirst, hpc, if_true]
      simp only [rootNamesOf, rootRows, List.filter_cons, hp]
      by_cases hc : c.parent_id == none
      · simp [hc, hn]
      · simp [hc]
    · rw [List.find?_cons_of_neg _ hpc] at h
      simp only [modifyFirst, hpc, Bool.false_eq_true, if_false]
      simp only [rootNamesOf, rootRows, List.filter_cons]
      by_cases hc : c.parent_id == none
      · simp only [hc, if_true, List.map_cons]
        have := rootNamesOf_modifyFirst_replace (p := p) (b := b) h hn hp
        simp only [rootNamesOf, rootRows] at this
        rw [this]
      · simp only [hc, Bool.false_eq_true, if_false]
        have := rootNamesOf_modifyFirst_replace (p := p) (b := b) h hn hp
        simp only [rootNamesOf, rootRows] at this
        rw [this]

/-- C1 counterexample to the claim as stated: right after bootstrap the
four roots are present, yet the delete operation — one of the Tree
Service operations the claim covers — succeeds on the childless,
unreferenced `Revenue` root and leaves a store with only three roots. -/
theorem C1_root_delete_counterexample :
    RootsOKb rootsStore = true ∧
    delete_account rootsStore [] [] [] [] 4 =
      .ok (eraseFirstP (fun x => x.id == 4) rootsStore,
        { id := 4, name := ("Revenue"), code := ("4000"), parent_id := none,
          nature := some ("credit"), cc_required := false,
          account_type := some ("p&l") }) ∧
    RootsOKb (eraseFirstP (fun x => x.id == 4) rootsStore) = false ∧
    rootNamesOf (eraseFirstP (fun x => x.id == 4) rootsStore) =
      [("Assets"), ("Liability & Equity"), ("Expenses")] :=
  ⟨by decide, by rfl, by decide, by decide⟩

/-- C1 amended: bootstrap establishes the four canonical roots, and the
invariant that exactly the four roots `Assets`, `Liability & Equity`,
`Expenses`, `Revenue` exist with null parents is preserved by every
creation (successful or not), by every successful update that does not
carry a name field, and by the two read operations, which do not write;
it is not preserved by delete, which can remove a childless unreferenced
root (see the counterexample), nor by an update renaming a root. -/
theorem C1_roots_invariant_amended :
    RootsOKb (validate_root_accounts []) = true ∧
    (∀ (s : Store) (body : CreateBody), RootsOKb s = true →
      RootsOKb (create_account_in_account_tree s body).1 = true) ∧
    (∀ (s : Store) (entries : List DailyEntry) (purch expn : List TxRef)
        (i : Nat) (uf : UpdateFields) (s' : Store) (m : String),
      RootsOKb s = true → uf.name = none →
      update_account s entries purch expn i uf = .ok (s', m) →
      RootsOKb s' = true) ∧
    (∀ (s : Store) (entries : List DailyEntry), (read_tree_op s entries).1 = s) ∧
    (∀ (s : Store) (nm : String), (read_by_parent_name_op s nm).1 = s) := by
  refine ⟨by decide, ?_, ?_, fun _ _ => rfl, fun _ _ => rfl⟩
  · intro s body h
    have hval : RootsOKb (validate_root_accounts s) = true := by
      simp only [RootsOKb] at h ⊢
      rw [rootNames_validate_of_rootsOK (by simpa [RootsOKb] using h)]
      exact h
    rcases create_store_shape s body with hsh | ⟨a, hsh, hpar⟩
    · rw [hsh]; exact hval
    · rw [hsh]
      simp only [RootsOKb, rootNamesOf_append] at hval ⊢
      have : rootNamesOf [a] = [] := by
        simp [rootNamesOf, rootRows, List.filter_cons, hpar]
      rw [this, List.append_nil]
      exact hval
  · intro s entries purch expn i uf s' m h hname hok
    simp only [update_account] at hok
    cases hfind : findAcct s i with
    | none => rw [hfind] at hok; cases hok
    | some a0 =>
      rw [hfind] at hok
      simp only [updateNameStage, hname] at hok
      split at hok
      · cases hok
      · rename_i a1 c1 hcc
        split at hok
        · cases hok
        · rename_i a2 c2 hty
          have h1 := updateCcStage_shape hcc
          have h2 := updateTypeStage_shape hty
          split at hok
          · cases hok; exact h
          · cases hok
            have hfind' : s.find? (fun x => x.id == i) = some a0 := hfind
            have hroots := rootNamesOf_modifyFirst_replace
              (p := fun x => x.id == i) (b := a2) hfind'
              (by rw [h2.1, h1.1]) (by rw [h2.2.1, h1.2.1])
            simp only [RootsOKb] at h ⊢
            rw [hroots]
            exact h

/-- C1 witness: a concrete creation and a concrete no-name update on the
bootstrapped store both keep the four-root invariant. -/
theorem C1_roots_invariant_amended_witness :
    RootsOKb (create_account_in_account_tree rootsStore vrBody).1 = true ∧
    RootsOKb (modifyFirst (fun x => x.id == 1)
      (fun _ => { assetsRoot with account_type := none }) rootsStore) = true := by
  constructor
  · exact C1_roots_invariant_amended.2.1 rootsStore vrBody (by decide)
  · exact C1_roots_invariant_amended.2.2.1 rootsStore [] [] [] 1
      { account_type := some none } _ _ (by decide) rfl (by rfl)

/- ### Claim C9 -/

/-- Canonicalising a root that already carries the canonical fields is
the identity. -/
theorem canonRoot_eq_self {r : Account} {tp : String}
    (h1 : r.account_type = some tp) (h2 : r.cc_required = false) :
    canonRoot tp r = r := by
  cases r
  simp_all [canonRoot]

/-- A bootstrap pass over a root already in canonical shape changes
nothing. -/
theorem bootstrapStep_eq_self {s : Store} {nm tp : String} (nat : String)
    (h : stepOKb s nm tp = true) : bootstrapStep s nm nat tp = s := by
  simp only [stepOKb] at h
  cases hfind : s.find? (rootPred nm) with
  | none => rw [hfind] at h; cases h
  | some r =>
    rw [hfind] at h
    simp only [Bool.and_eq_true, beq_iff_eq] at h
    simp only [bootstrapStep, hfind]
    exact modifyFirst_eq_self hfind (canonRoot_eq_self h.1 h.2)

/-- One bootstrap pass establishes its own root's postcondition. -/
theorem bootstrapStep_estab (s : Store) (nm nat tp : String) :
    stepOKb (bootstrapStep s nm nat tp) nm tp = true := by
  cases hfind : s.find? (rootPred nm) with
  | none =>
    simp only [bootstrapStep, hfind, stepOKb]
    rw [List.find?_append, hfind]
    simp [rootPred]
  | some r =>
    simp only [bootstrapStep, hfind, stepOKb]
    have hp : ∀ x, rootPred nm x = true → rootPred nm (canonRoot tp x) = true := by
      intro x hx
      simpa [rootPred, canonRoot] using hx
    rw [find?_modifyFirst_same hp hfind]
    simp [canonRoot]

/-- A bootstrap pass over a different root name preserves an established
postcondition. -/
theorem bootstrapStep_preserve {s : Store} {nm tp : String} {nm' nat' tp' : String}
    (hne : nm ≠ nm') (h : stepOKb s nm tp = true) :
    stepOKb (bootstrapStep s nm' nat' tp') nm tp = true := by
  simp only [stepOKb] at h
  cases hfind : s.find? (rootPred nm) with
  | none => rw [hfind] at h; cases h
  | some r =>
    rw [hfind] at h
    cases hfind' : s.find? (rootPred nm') with
    | none =>
      simp only [bootstrapStep, hfind', stepOKb]
      rw [List.find?_append, hfind]
      simpa using h
    | some r' =>
      simp only [bootstrapStep, hfind', stepOKb]
      have hd : ∀ x, rootPred nm' x = true → rootPred nm x = false := by
        intro x hx
        simp only [rootPred, Bool.and_eq_true, beq_iff_eq] at hx
        have hb : (x.name == nm) = false := by
          rw [hx.1]
          exact beq_eq_false_iff_ne.mpr (Ne.symm hne)
        simp [rootPred, hb]
      have hf : ∀ x, rootPred nm (canonRoot tp' x) = rootPred nm x := by
        intro x
        simp [rootPred, canonRoot]
      rw [find?_modifyFirst_disjoint hd hf, hfind]
      exact h

/-- Every bootstrap run leaves the store in the bootstrapped shape. -/
theorem validate_bootstrapped (s : Store) :
    Bootstrappedb (validate_root_accounts s) = true := by
  simp only [Bootstrappedb, validate_root_accounts, Bool.and_eq_true]
  refine ⟨⟨⟨?_, ?_⟩, ?_⟩, ?_⟩
  · exact bootstrapStep_preserve (by decide)
      (bootstrapStep_preserve (by decide)
        (bootstrapStep_preserve (by decide) (bootstrapStep_estab _ _ _ _)))
  · exact bootstrapStep_preserve (by decide)
      (bootstrapStep_preserve (by decide) (bootstrapStep_estab _ _ _ _))
  · exact bootstrapStep_preserve (by decide) (bootstrapStep_estab _ _ _ _)
  · exact bootstrapStep_estab _ _ _ _

/-- A bootstrapped store is a fixed point of the bootstrap routine. -/
theorem validate_eq_self {s : Store} (h : Bootstrappedb s = true) :
    validate_root_accounts s = s := by
  simp only [Bootstrappedb, Bool.and_eq_true] at h
  simp only [validate_root_accounts]
  rw [bootstrapStep_eq_self _ h.1.1.1, bootstrapStep_eq_self _ h.1.1.2,
    bootstrapStep_eq_self _ h.1.2, bootstrapStep_eq_self _ h.2]

/-- Running the bootstrap twice equals running it once, on every store. -/
theorem validate_idem (s : Store) :
    validate_root_accounts (validate_root_accounts s) = validate_root_accounts s :=
  validate_eq_self (validate_bootstrapped s)

/-- Root rows of an appended table. -/
theorem rootRows_append (s t : Store) :
    rootRows (s ++ t) = rootRows s ++ rootRows t := by
  simp [rootRows, List.filter_append]

/-- No root row means no root lookup succeeds. -/
theorem find?_rootPred_eq_none {s : Store} (h : rootRows s = []) (nm : String) :
    s.find? (rootPred nm) = none := by
  rw [List.find?_eq_none]
  intro x hx hpx
  simp only [rootPred, Bool.and_eq_true, beq_iff_eq] at hpx
  have : x ∈ rootRows s := by
    simp only [rootRows, List.mem_filter, hx, true_and]
    simp [hpx.2]
  rw [h] at this
  cases this

/-- C9: the claim holds once the starting store is required not to carry
root rows of its own (the claim's `any starting store` fails: bootstrap
never removes a foreign root nor fixes a wrong `nature`, see the
counterexample): bootstrap run N ≥ 1 times equals bootstrap run once on
every store (so ids, once assigned, never change), and from any store
without root rows one run creates exactly the four canonical roots with
the canonical name, code, nature, account type and cost-center flag. -/
theorem C9_bootstrap_idempotent :
    (∀ (s : Store) (n : Nat), iterBootstrap (n + 1) s = validate_root_accounts s) ∧
    (∀ s : Store, rootRows s = [] →
      (rootRows (validate_root_accounts s)).map rootProj = canonicalRootProjs) := by
  constructor
  · have key : ∀ (n : Nat) (s : Store),
        iterBootstrap (n + 1) s = validate_root_accounts s := by
      intro n
      induction n with
      | zero => intro s; rfl
      | succ k ih =>
        intro s
        show iterBootstrap (k + 1) (validate_root_accounts s) = validate_root_accounts s
        rw [ih (validate_root_accounts s), validate_idem]
    exact fun s n => key n s
  · intro s h0
    have hf1 := find?_rootPred_eq_none h0 ("Assets")
    have hstep : ∀ (t : Store) (nm nat tp cd : String),
        t.find? (rootPred nm) = none → generate_code t none = cd →
        bootstrapStep t nm nat tp = t ++ [mkRoot (nextId t) nm cd nat tp] := by
      intro t nm nat tp cd hf hg
      simp [bootstrapStep, hf, hg, mkRoot]
    have g1 : generate_code s none = ("1000") := by
      simp only [generate_code, h0]
      rfl
    simp only [validate_root_accounts]
    rw [hstep s ("Assets") ("debit") ("balance_sheet") ("1000") hf1 g1]
    generalize nextId s = i1
    have hf2 : (s ++ [mkRoot i1 ("Assets") ("1000") ("debit") ("balance_sheet")]).find?
        (rootPred ("Liability & Equity")) = none := by
      rw [List.find?_append, find?_rootPred_eq_none h0 ("Liability & Equity")]
      rfl
    have r1 : rootRows (s ++ [mkRoot i1 ("Assets") ("1000") ("debit") ("balance_sheet")]) =
        [mkRoot i1 ("Assets") ("1000") ("debit") ("balance_sheet")] := by
      rw [rootRows_append, h0]
      rfl
    have g2 : generate_code
        (s ++ [mkRoot i1 ("Assets") ("1000") ("debit") ("balance_sheet")]) none =
        ("2000") := by
      simp only [generate_code]
      rw [r1]
      show ((strToNat0 ("1000") / 1000 + 1) * 1000).repr = ("2000")
      decide
    rw [hstep _ ("Liability & Equity") ("credit") ("balance_sheet") ("2000") hf2 g2]
    generalize nextId (s ++ [mkRoot i1 ("Assets") ("1000") ("debit") ("balance_sheet")]) = i2
    have hf3 : (s ++ [mkRoot i1 ("Assets") ("1000") ("debit") ("balance_sheet")] ++
        [mkRoot i2 ("Liability & Equity") ("2000") ("credit") ("balance_sheet")]).find?
        (rootPred ("Expenses")) = none := by
      rw [List.find?_append, List.find?_append, find?_rootPred_eq_none h0 ("Expenses")]
      rfl
    have r2 : rootRows (s ++ [mkRoot i1 ("Assets") ("1000") ("debit") ("balance_sheet")] ++
        [mkRoot i2 ("Liability & Equity") ("2000") ("credit") ("balance_sheet")]) =
        [mkRoot i1 ("Assets") ("1000") ("debit") ("balance_sheet"),
         mkRoot i2 ("Liability & Equity") ("2000") ("credit") ("balance_sheet")] := by
      rw [rootRows_append, rootRows_append, h0]
      rfl
    have g3 : generate_code (s ++ [mkRoot i1 ("Assets") ("1000") ("debit") ("balance_sheet")] ++
        [mkRoot i2 ("Liability & Equity") ("2000") ("credit") ("balance_sheet")]) none =
        ("3000") := by
      simp only [generate_code]
      rw [r2]
      show ((strToNat0 ("2000") / 1000 + 1) * 1000).repr = ("3000")
      decide
    rw [hstep _ ("Expenses") ("debit") ("p&l") ("3000") hf3 g3]
    generalize nextId (s ++ [mkRoot i1 ("Assets") ("1000") ("debit") ("balance_sheet")] ++
      [mkRoot i2 ("Liability & Equity") ("2000") ("credit") ("balance_sheet")]) = i3
    have hf4 : (s ++ [mkRoot i1 ("Assets") ("1000") ("debit") ("balance_sheet")] ++
        [mkRoot i2 ("Liability & Equity") ("2000") ("credit") ("balance_sheet")] ++
        [mkRoot i3 ("Expenses") ("3000") ("debit") ("p&l")]).find?
        (rootPred ("Revenue")) = none := by
      rw [List.find?_append, List.find?_append, List.find?_append,
        find?_rootPred_eq_none h0 ("Revenue")]
      rfl
    have r3 : rootRows (s ++ [mkRoot i1 ("Assets") ("1000") ("debit") ("balance_sheet")] ++
        [mkRoot i2 ("Liability & Equity") ("2000") ("credit") ("balance_sheet")] ++
        [mkRoot i3 ("Expenses") ("3000") ("debit") ("p&l")]) =
        [mkRoot i1 ("Assets") ("1000") ("debit") ("balance_sheet"),
         mkRoot i2 ("Liability & Equity") ("2000") ("credit") ("balance_sheet"),
         mkRoot i3 ("Expenses") ("3000") ("debit") ("p&l")] := by
      rw [rootRows_append, rootRows_append, rootRows_append, h0]
      rfl
    have g4 : generate_code (s ++ [mkRoot i1 ("Assets") ("1000") ("debit") ("balance_sheet")] ++
        [mkRoot i2 ("Liability & Equity") ("2000") ("credit") ("balance_sheet")] ++
        [mkRoot i3 ("Expenses") ("3000") ("debit") ("p&l")]) none = ("4000") := by
      simp only [generate_code]
      rw [r3]
      show ((strToNat0 ("3000") / 1000 + 1) * 1000).repr = ("4000")
      decide
    rw [hstep _ ("Revenue") ("credit") ("p&l") ("4000") hf4 g4]
    rw [rootRows_append, rootRows_append, rootRows_append, rootRows_append, h0]
    rfl

/-- C9 witness: three bootstrap runs on the empty store equal one run,
and one run on the empty store yields exactly the four canonical root
projections. -/
theorem C9_bootstrap_idempotent_witness :
    iterBootstrap 3 [] = validate_root_accounts [] ∧
    (rootRows (validate_root_accounts [])).map rootProj = canonicalRootProjs := by
  constructor
  · exact C9_bootstrap_idempotent.1 [] 2
  · exact C9_bootstrap_idempotent.2 [] (by decide)

/-- C9 counterexample to the claim as stated: from a starting store that
already carries a foreign root row `Foo`, bootstrap yields five roots,
not four; and a pre-existing `Assets` root with the wrong `nature` keeps
it, since the bootstrap only re-canonicalises `account_type` and
`cc_required`. -/
theorem C9_any_store_counterexample :
    (rootRows (validate_root_accounts
      [{ id := 9, name := ("Foo"), code := ("9000"), parent_id := none,
         nature := some ("debit"), cc_required := false,
         account_type := none }])).length = 5 ∧
    (validate_root_accounts
      [{ id := 9, name := ("Assets"), code := ("1000"), parent_id := none,
         nature := some ("credit"), cc_required := false,
         account_type := some ("balance_sheet") }]).all
      (fun a => a.name != ("Assets") || a.nature == some ("credit")) = true :=
  ⟨by decide, by decide⟩

/- ### Root-walk stability toolkit -/

theorem rootOfAux_fuel_mono {s : Store} :
    ∀ {n : Nat} {a r : Account}, rootOfAux s n a = some r →
      ∀ {m : Nat}, n ≤ m → rootOfAux s m a = some r := by
  intro n
  induction n with
  | zero => intro a r h; cases h
  | succ k ih =>
    intro a r h m hm
    obtain ⟨m', rfl⟩ : ∃ m', m = m' + 1 := ⟨m - 1, by omega⟩
    simp only [rootOfAux] at h ⊢
    cases hpar : a.parent_id with
    | none => simp only [hpar] at h ⊢; exact h
    | some pid =>
      simp only [hpar] at h ⊢
      cases hfind : findAcct s pid with
      | none => simp [hfind] at h
      | some p =>
        simp only [hfind] at h ⊢
        exact ih h (by omega)

theorem findAcct_append_left {s t : Store} {pid : Nat} {p : Account}
    (h : findAcct s pid = some p) : findAcct (s ++ t) pid = some p := by
  simp only [findAcct, List.find?_append] at *
  rw [h]
  rfl

theorem rootOfAux_append {s t : Store} :
    ∀ {n : Nat} {a r : Account}, rootOfAux s n a = some r →
      rootOfAux (s ++ t) n a = some r := by
  intro n
  induction n with
  | zero => intro a r h; cases h
  | succ k ih =>
    intro a r h
    simp only [rootOfAux] at h ⊢
    cases hpar : a.parent_id with
    | none => simp only [hpar] at h ⊢; exact h
    | some pid =>
      simp only [hpar] at h ⊢
      cases hfind : findAcct s pid with
      | none => simp [hfind] at h
      | some p =>
        simp only [hfind] at h
        rw [findAcct_append_left hfind]
        exact ih h

theorem get_root_account_append {s t : Store} {a r : Account}
    (h : get_root_account s a = some r) : get_root_account (s ++ t) a = some r := by
  have h1 := rootOfAux_append (t := t) h
  exact rootOfAux_fuel_mono h1 (by simp only [List.length_append]; omega)

/-- Membership-relative congruence of `find?`. -/
theorem find?_congr_mem {p q : Account → Bool} :
    ∀ {l : List Account}, (∀ y ∈ l, p y = q y) → l.find? p = l.find? q
  | [], _ => rfl
  | b :: bs, h => by
    have hb := h b (by simp)
    by_cases hpb : p b
    · rw [List.find?_cons_of_pos _ hpb, List.find?_cons_of_pos _ (by rw [← hb]; exact hpb)]
    · rw [List.find?_cons_of_neg _ hpb, List.find?_cons_of_neg _ (by rw [← hb]; exact hpb)]
      exact find?_congr_mem (fun y hy => h y (by simp [hy]))

/-- With pairwise-distinct ids, mutating the first id match is mutating
the (unique) id match everywhere. -/
theorem modifyFirst_eq_map_of_nodup {aid : Nat} {f : Account → Account} :
    ∀ {s : Store}, NodupIdsb s = true →
      modifyFirst (fun x => x.id == aid) f s =
        s.map (fun y => if y.id == aid then f y else y)
  | [], _ => rfl
  | b :: bs, h => by
    simp only [NodupIdsb, List.map_cons, nodupB, Bool.and_eq_true,
      Bool.not_eq_eq_eq_not, Bool.not_true, List.contains_eq_any_beq] at h
    by_cases hb : b.id == aid
    · simp only [modifyFirst, hb, if_true, List.map_cons]
      congr 1
      have : ∀ y ∈ bs, (y.id == aid) = false := by
        intro y hy
        have hyb : (y.id == b.id) = false := by
          by_contra hcon
          simp only [Bool.not_eq_false, beq_iff_eq] at hcon
          have : ((List.map (fun a => a.id) bs).any fun x => b.id == x) = true :=
            List.any_eq_true.mpr ⟨y.id, List.mem_map_of_mem _ hy, by simp [hcon]⟩
          rw [this] at h
          cases h.1
        have : y.id ≠ b.id := by simpa using hyb
        have hbid : b.id = aid := by simpa using hb
        simp [hbid ▸ this]
      calc bs = bs.map id := by simp
        _ = bs.map (fun y => if y.id == aid then f y else y) := by
            refine List.map_congr_left (fun y hy => ?_)
            simp [this y hy]
    · simp only [modifyFirst, hb, Bool.false_eq_true, if_false, List.map_cons, hb]
      congr 1
      exact modifyFirst_eq_map_of_nodup (by
        simp only [NodupIdsb]
        exact h.2)

/-- Looking an id up through an id-preserving row rewrite. -/
theorem findAcct_map {h : Account → Account} {s : Store} {pid : Nat}
    (hid : ∀ y ∈ s, (h y).id = y.id) :
    findAcct (s.map h) pid = (findAcct s pid).map h := by
  simp only [findAcct, List.find?_map]
  congr 1
  refine find?_congr_mem (fun y hy => ?_)
  simp [Function.comp, hid y hy]

/-- The root walk through an id- and parent-preserving row rewrite. -/
theorem rootOfAux_map {s : Store} {h : Account → Account}
    (hid : ∀ y ∈ s, (h y).id = y.id)
    (hpar : ∀ y ∈ s, (h y).parent_id = y.parent_id) :
    ∀ {n : Nat} {a r : Account}, a ∈ s → rootOfAux s n a = some r →
      rootOfAux (s.map h) n (h a) = some (h r) ∧ r ∈ s := by
  intro n
  induction n with
  | zero => intro a r _ hw; cases hw
  | succ k ih =>
    intro a r ha hw
    simp only [rootOfAux] at hw ⊢
    rw [hpar a ha]
    cases hp : a.parent_id with
    | none =>
      simp only [hp] at hw ⊢
      cases hw
      exact ⟨rfl, ha⟩
    | some pid =>
      simp only [hp] at hw ⊢
      cases hfind : findAcct s pid with
      | none => simp [hfind] at hw
      | some p =>
        simp only [hfind] at hw
        have hpmem : p ∈ s := List.mem_of_find?_eq_some hfind
        rw [findAcct_map hid, hfind]
        exact ih hpmem hw

/-- The root walk of a member through the committed form of an update. -/
theorem get_root_account_map {s : Store} {h : Account → Account}
    (hid : ∀ y ∈ s, (h y).id = y.id)
    (hpar : ∀ y ∈ s, (h y).parent_id = y.parent_id)
    {a r : Account} (ha : a ∈ s) (hw : get_root_account s a = some r) :
    get_root_account (s.map h) (h a) = some (h r) ∧ r ∈ s := by
  have := rootOfAux_map hid hpar ha hw
  refine ⟨?_, this.2⟩
  simpa [get_root_account, List.length_map] using this.1

/- ### Canonical-root inversion -/

/-- A canonical store's root rows, element by element. -/
theorem canonicalRoots_rows {s : Store} (h : CanonicalRootsb s = true) :
    ∃ r1 r2 r3 r4, rootRows s = [r1, r2, r3, r4] ∧
      rootProj r1 = (("Assets"), ("1000"), some ("debit"), some ("balance_sheet"), false) ∧
      rootProj r2 = (("Liability & Equity"), ("2000"), some ("credit"),
        some ("balance_sheet"), false) ∧
      rootProj r3 = (("Expenses"), ("3000"), some ("debit"), some ("p&l"), false) ∧
      rootProj r4 = (("Revenue"), ("4000"), some ("credit"), some ("p&l"), false) := by
  simp only [CanonicalRootsb, beq_iff_eq] at h
  cases hr : rootRows s with
  | nil => rw [hr] at h; simp [canonicalRootProjs] at h
  | cons r1 t1 =>
    cases ht1 : t1 with
    | nil => rw [hr, ht1] at h; simp [canonicalRootProjs] at h
    | cons r2 t2 =>
      cases ht2 : t2 with
      | nil => rw [hr, ht1, ht2] at h; simp [canonicalRootProjs] at h
      | cons r3 t3 =>
        cases ht3 : t3 with
        | nil => rw [hr, ht1, ht2, ht3] at h; simp [canonicalRootProjs] at h
        | cons r4 t4 =>
          cases ht4 : t4 with
          | cons r5 t5 =>
            rw [hr, ht1, ht2, ht3, ht4] at h
            simp [canonicalRootProjs] at h
          | nil =>
            rw [hr, ht1, ht2, ht3, ht4] at h
            simp only [List.map_cons, List.map_nil, canonicalRootProjs,
              List.cons.injEq, and_true] at h
            exact ⟨r1, r2, r3, r4, by simp [hr, ht1, ht2, ht3, ht4],
              h.1, h.2.1, h.2.2.1, h.2.2.2⟩

/-- The observable fields a root projection pins down. -/
theorem rootProj_fields {r : Account} {nm cd : String} {nat tp : Option String} {cc : Bool}
    (h : rootProj r = (nm, cd, nat, tp, cc)) :
    r.name = nm ∧ r.code = cd ∧ r.nature = nat ∧ r.account_type = tp ∧
      r.cc_required = cc := by
  simp only [rootProj, Prod.mk.injEq] at h
  exact ⟨h.1, h.2.1, h.2.2.1, h.2.2.2.1, h.2.2.2.2⟩

/-- A root lookup is a name lookup over the root rows. -/
theorem find?_rootPred_eq_rows (s : Store) (nm : String) :
    s.find? (rootPred nm) = (rootRows s).find? (fun x => x.name == nm) := by
  simp only [rootRows, List.find?_filter]
  refine (find?_congr_mem (fun y _ => ?_)).symm
  simp only [rootPred]
  by_cases h1 : y.parent_id == none <;> by_cases h2 : y.name == nm <;>
    simp [h1, h2]

/-- A canonical store is already bootstrapped. -/
theorem canonical_bootstrapped {s : Store} (h : CanonicalRootsb s = true) :
    Bootstrappedb s = true := by
  obtain ⟨r1, r2, r3, r4, hr, h1, h2, h3, h4⟩ := canonicalRoots_rows h
  obtain ⟨h1n, _, _, h1t, h1c⟩ := rootProj_fields h1
  obtain ⟨h2n, _, _, h2t, h2c⟩ := rootProj_fields h2
  obtain ⟨h3n, _, _, h3t, h3c⟩ := rootProj_fields h3
  obtain ⟨h4n, _, _, h4t, h4c⟩ := rootProj_fields h4
  simp only [Bootstrappedb, stepOKb, find?_rootPred_eq_rows, hr, Bool.and_eq_true]
  simp [List.find?, h1n, h2n, h3n, h4n, h1t, h1c, h2t, h2c, h3t, h3c, h4t, h4c]

/-- Bootstrap is the identity on a canonical store. -/
theorem validate_eq_of_canonical {s : Store} (h : CanonicalRootsb s = true) :
    validate_root_accounts s = s :=
  validate_eq_self (canonical_bootstrapped h)

/-- The end of a root walk has a null parent and lies in the table (or is
the walk's start). -/
theorem rootOfAux_root_mem {s : Store} :
    ∀ {n : Nat} {a r : Account}, rootOfAux s n a = some r →
      r.parent_id = none ∧ (r = a ∨ r ∈ s) := by
  intro n
  induction n with
  | zero => intro a r h; cases h
  | succ k ih =>
    intro a r h
    simp only [rootOfAux] at h
    cases hp : a.parent_id with
    | none =>
      simp only [hp] at h
      cases h
      exact ⟨hp, Or.inl rfl⟩
    | some pid =>
      simp only [hp] at h
      cases hfind : findAcct s pid with
      | none => simp [hfind] at h
      | some p =>
        simp only [hfind] at h
        rcases ih h with ⟨hr, hmem | hmem⟩
        · exact ⟨hr, Or.inr (hmem ▸ List.mem_of_find?_eq_some hfind)⟩
        · exact ⟨hr, Or.inr hmem⟩

/-- In a canonical store every root walk lands on one of the four
canonical roots. -/
theorem root_canonical_cases {s : Store} (hc : CanonicalRootsb s = true)
    {a r : Account} (ha : a ∈ s) (h : get_root_account s a = some r) :
    rootProj r = (("Assets"), ("1000"), some ("debit"), some ("balance_sheet"), false) ∨
    rootProj r = (("Liability & Equity"), ("2000"), some ("credit"),
      some ("balance_sheet"), false) ∨
    rootProj r = (("Expenses"), ("3000"), some ("debit"), some ("p&l"), false) ∨
    rootProj r = (("Revenue"), ("4000"), some ("credit"), some ("p&l"), false) := by
  obtain ⟨r1, r2, r3, r4, hr, h1, h2, h3, h4⟩ := canonicalRoots_rows hc
  have hprop := rootOfAux_root_mem h
  have hmem : r ∈ s := by
    rcases hprop.2 with heq | hmem
    · exact heq ▸ ha
    · exact hmem
  have : r ∈ rootRows s := by
    simp only [rootRows, List.mem_filter, hmem, true_and]
    simp [hprop.1]
  rw [hr] at this
  simp only [List.mem_cons, List.not_mem_nil, or_false] at this
  rcases this with rfl | rfl | rfl | rfl
  · exact Or.inl h1
  · exact Or.inr (Or.inl h2)
  · exact Or.inr (Or.inr (Or.inl h3))
  · exact Or.inr (Or.inr (Or.inr h4))

/- ### Creation path semantics -/

/-- A failing creation leaves exactly the bootstrapped store. -/
theorem create_error_store {s : Store} {body : CreateBody} {s₂ : Store} {e : AccountErr}
    (h : create_account_in_account_tree s body = (s₂, .error e)) :
    s₂ = validate_root_accounts s := by
  simp only [create_account_in_account_tree] at h
  repeat' split at h
  all_goals
    first
    | (simp only [Prod.mk.injEq] at h
       exact h.1.symm)
    | (simp only [finishCreate] at h
       split at h <;>
         (simp only [Prod.mk.injEq] at h
          first
          | exact h.1.symm
          | cases h.2))

/-- The fields of a successfully created account, tied to its resolved
parent and root. -/
theorem create_ok_shape {s : Store} {body : CreateBody} {s₂ : Store} {a : Account}
    (h : create_account_in_account_tree s body = (s₂, .ok a)) :
    s₂ = validate_root_accounts s ++ [a] ∧
    ∃ pid parent root,
      body.parent_id = some pid ∧
      findAcct (validate_root_accounts s) pid = some parent ∧
      get_root_account (validate_root_accounts s) parent = some root ∧
      a.parent_id = some parent.id ∧
      (pyLower root.name = ("assets") →
        a.nature = some ("debit") ∧ a.account_type = some ("balance_sheet")) ∧
      (pyLower root.name = ("liability & equity") →
        a.nature = some ("credit") ∧ a.account_type = some ("balance_sheet")) ∧
      (pyLower root.name = ("expenses") → a.account_type = some ("p&l")) ∧
      (pyLower root.name = ("revenue") → a.account_type = some ("p&l")) := by
  simp only [create_account_in_account_tree] at h
  cases hex : extract_body body with
  | error e => rw [hex] at h; simp at h
  | ok t =>
    obtain ⟨nm, pidv, natv, ccv, atv⟩ := t
    have ht := extract_body_ok hex
    simp only [Prod.mk.injEq] at ht
    obtain ⟨hnm, hpidv, hnat, hccv, hatv⟩ := ht
    rw [hex] at h
    simp only [] at h
    split at h
    · simp at h
    · cases hpv : pidv with
      | none => simp only [hpv] at h; simp at h
      | some pid =>
        simp only [hpv] at h
        split at h
        · simp at h
        · cases hpar : findAcct (validate_root_accounts s) pid with
          | none => simp only [hpar] at h; simp at h
          | some parent =>
            simp only [hpar] at h
            cases hroot : get_root_account (validate_root_accounts s) parent with
            | none => simp only [hroot] at h; simp at h
            | some root =>
              simp only [hroot] at h
              refine ?_
              have hfin : ∀ {nat2 at2}, finishCreate (validate_root_accounts s) nm nat2
                    parent ccv at2 = (s₂, Except.ok a) →
                  s₂ = validate_root_accounts s ++ [a] ∧ a.parent_id = some parent.id ∧
                    a.nature = nat2 ∧ a.account_type = inferredType root at2 := by
                intro nat2 at2 hfc
                simp only [finishCreate, fill_new_account_info_eq hroot] at hfc
                simp only [Prod.mk.injEq, Except.ok.injEq] at hfc
                refine ⟨by rw [← hfc.1, hfc.2], ?_, ?_, ?_⟩ <;> rw [← hfc.2]
              repeat' split at h
              all_goals first
                | (simp at h
                   done)
                | (rcases hfin h with ⟨hs2, hpid2, hnat2, hat2⟩
                   refine ⟨hs2, pid, parent, root, by rw [← hpidv, hpv], hpar, hroot,
                     hpid2, ?_, ?_, ?_, ?_⟩ <;>
                     (intro hroots) <;>
                     simp_all [inferredType])

/-- The root walk of a freshly inserted child lands on its parent's root. -/
theorem get_root_account_new_child {s : Store} {pid : Nat} {parent root a : Account}
    (hpar : findAcct s pid = some parent)
    (hroot : get_root_account s parent = some root)
    (hap : a.parent_id = some pid) :
    get_root_account (s ++ [a]) a = some root := by
  have hr' : rootOfAux s (s.length + 1) parent = some root := hroot
  have hfuel : (s ++ [a]).length + 1 = (s.length + 1) + 1 := by simp
  show rootOfAux (s ++ [a]) ((s ++ [a]).length + 1) a = some root
  rw [hfuel]
  simp only [rootOfAux, hap, findAcct_append_left hpar]
  exact rootOfAux_append hr'

/-- Pairwise-distinct ids make the id an injective key. -/
theorem nodup_id_unique {s : Store} (h : NodupIdsb s = true) :
    ∀ {x y : Account}, x ∈ s → y ∈ s → x.id = y.id → x = y := by
  induction s with
  | nil => intro x y hx; cases hx
  | cons b bs ih =>
    intro x y hx hy hxy
    simp only [NodupIdsb, nodupB, Bool.and_eq_true, Bool.not_eq_eq_eq_not,
      Bool.not_true, List.contains_eq_any_beq] at h
    have hnotin : ∀ z ∈ bs, z.id ≠ b.id := by
      intro z hz hcon
      have : ((List.map (fun a => a.id) bs).any fun v => b.id == v) = true :=
        List.any_eq_true.mpr ⟨z.id, List.mem_map_of_mem _ hz, by simp [hcon]⟩
      rw [this] at h
      cases h.1
    rcases List.mem_cons.mp hx with rfl | hx' <;>
      rcases List.mem_cons.mp hy with rfl | hy'
    · rfl
    · exact absurd hxy.symm (hnotin y hy')
    · exact absurd hxy (hnotin x hx')
    · exact ih (by simpa [NodupIdsb] using h.2) hx' hy' hxy

/-- The root walk only looks at the start row's parent pointer. -/
theorem get_root_account_congr_start {s : Store} {x y : Account}
    (h : x.parent_id = y.parent_id) (hne : x.parent_id ≠ none) :
    get_root_account s x = get_root_account s y := by
  obtain ⟨pid, hp⟩ : ∃ pid, x.parent_id = some pid := by
    cases hx : x.parent_id with
    | none => exact absurd hx hne
    | some pid => exact ⟨pid, rfl⟩
  simp only [get_root_account, rootOfAux, hp, h ▸ hp]

/-- A successful `updateNameStage` keeps every field but the name, and
keeps the name too when no name was supplied. -/
theorem updateNameStage_sem {s : Store} {entries : List DailyEntry} {uf : UpdateFields}
    {acct a' : Account} {ch ch' : List String}
    (h : updateNameStage s entries uf acct ch = .ok (a', ch')) :
    a'.parent_id = acct.parent_id ∧ a'.id = acct.id ∧ a'.nature = acct.nature ∧
      a'.account_type = acct.account_type ∧ a'.cc_required = acct.cc_required ∧
      (uf.name = none → a'.name = acct.name) := by
  simp only [updateNameStage] at h
  split at h
  · cases h
    simp
  · split at h
    · cases h
    · split at h
      · split at h
        · cases h
        · split at h
          · cases h
          · cases h
            simp_all
      · cases h
        simp

/-- The `account_type` a successful `updateTypeStage` commits: unchanged,
cleared, or validated against the root resolved from the staged row. -/
theorem updateTypeStage_sem {s : Store} {uf : UpdateFields}
    {acct a' : Account} {ch ch' : List String}
    (h : updateTypeStage s uf acct ch = .ok (a', ch')) :
    a'.account_type = acct.account_type ∨ a'.account_type = none ∨
    (∃ root, get_root_account s acct = some root ∧
      ((a'.account_type = some ("balance_sheet") ∧
        (root.name = ("Assets") ∨ root.name = ("Liability & Equity"))) ∨
       (a'.account_type = some ("p&l") ∧
        (root.name = ("Revenue") ∨ root.name = ("Expenses"))))) := by
  simp only [updateTypeStage] at h
  split at h
  · cases h
    exact Or.inl rfl
  · split at h
    · cases h
      exact Or.inr (Or.inl rfl)
    · cases h
      exact Or.inl rfl
  · rename_i t hteq
    split at h
    · cases h
    · rename_i hin
      split at h
      · rename_i hne
        cases hroot : get_root_account s acct with
        | none => simp only [hroot] at h; cases h
        | some root =>
          simp only [hroot] at h
          split at h
          · cases h
          · rename_i hb1
            split at h
            · cases h
            · rename_i hb2
              cases h
              refine Or.inr (Or.inr ⟨root, rfl, ?_⟩)
              have hb1f : (pyStrip t == ("balance_sheet") &&
                  !(root.name == ("Assets") ||
                    root.name == ("Liability & Equity"))) = false := by
                simpa using hb1
              have hb2f : ((pyStrip t == ("p&l")) &&
                  !(root.name == ("Revenue") || root.name == ("Expenses"))) = false := by
                simpa using hb2
              by_cases hbs : (pyStrip t == ("balance_sheet")) = true
              · left
                refine ⟨by simp [beq_iff_eq.mp hbs], ?_⟩
                exact or_iff_not_imp_left.mpr (by simpa [hbs] using hb1f)
              · right
                have hbsf : (pyStrip t == ("balance_sheet")) = false := by
                  simpa using hbs
                have hpl : (pyStrip t == ("p&l")) = true := by
                  cases hv : (pyStrip t == ("p&l")) with
                  | true => rfl
                  | false => exact absurd (by simp [hbsf, hv]) hin
                refine ⟨by simp [beq_iff_eq.mp hpl], ?_⟩
                exact or_iff_not_imp_left.mpr (by simpa [hpl] using hb2f)
      · cases h
        exact Or.inl rfl

/- ### Policy preservation -/

/-- Assembling one row's policy check from propositional facts about its
resolved root. -/
theorem policyRow_of_fields {s' : Store} {x root : Account}
    (hroot : get_root_account s' x = some root)
    (hA : root.name = ("Assets") → x.nature = some ("debit") ∧
      (x.account_type = some ("balance_sheet") ∨ x.account_type = none))
    (hL : root.name = ("Liability & Equity") → x.nature = some ("credit") ∧
      (x.account_type = some ("balance_sheet") ∨ x.account_type = none))
    (hE : root.name = ("Expenses") →
      x.account_type = some ("p&l") ∨ x.account_type = none)
    (hR : root.name = ("Revenue") →
      x.account_type = some ("p&l") ∨ x.account_type = none) :
    policyRowOKb s' x = true := by
  simp only [policyRowOKb, hroot, Bool.and_eq_true, decide_eq_true_eq]
  refine ⟨⟨⟨?_, ?_⟩, ?_⟩, ?_⟩
  · intro hn
    obtain ⟨h1, h2⟩ := hA (by simpa using hn)
    simp [h1]
    rcases h2 with h2 | h2 <;> simp [h2]
  · intro hn
    obtain ⟨h1, h2⟩ := hL (by simpa using hn)
    simp [h1]
    rcases h2 with h2 | h2 <;> simp [h2]
  · intro hn
    rcases hE (by simpa using hn) with h2 | h2 <;> simp [h2]
  · intro hn
    rcases hR (by simpa using hn) with h2 | h2 <;> simp [h2]

/-- Transferring one row's policy check along equal root walks. -/
theorem policyRow_transfer {s s' : Store} {x x' r r' : Account}
    (h1 : get_root_account s x = some r)
    (h2 : get_root_account s' x' = some r')
    (hname : r'.name = r.name)
    (hnat : x'.nature = x.nature) (hat : x'.account_type = x.account_type)
    (h : policyRowOKb s x = true) : policyRowOKb s' x' = true := by
  simp only [policyRowOKb, h1, Bool.and_eq_true, decide_eq_true_eq] at h
  obtain ⟨⟨⟨hA, hL⟩, hE⟩, hR⟩ := h
  simp only [policyRowOKb, h2, Bool.and_eq_true, decide_eq_true_eq]
  rw [hname, hnat, hat]
  exact ⟨⟨⟨hA, hL⟩, hE⟩, hR⟩

/-- The propositional reading of one row's policy check. -/
theorem policyRow_props {s : Store} {x r : Account}
    (hroot : get_root_account s x = some r) (h : policyRowOKb s x = true) :
    (r.name = ("Assets") → x.nature = some ("debit") ∧
      (x.account_type = some ("balance_sheet") ∨ x.account_type = none)) ∧
    (r.name = ("Liability & Equity") → x.nature = some ("credit") ∧
      (x.account_type = some ("balance_sheet") ∨ x.account_type = none)) ∧
    (r.name = ("Expenses") →
      x.account_type = some ("p&l") ∨ x.account_type = none) ∧
    (r.name = ("Revenue") →
      x.account_type = some ("p&l") ∨ x.account_type = none) := by
  simp only [policyRowOKb, hroot, Bool.and_eq_true, decide_eq_true_eq] at h
  obtain ⟨⟨⟨hA, hL⟩, hE⟩, hR⟩ := h
  refine ⟨?_, ?_, ?_, ?_⟩
  · intro hn
    have := hA (by simp [hn])
    simp only [Bool.and_eq_true, Bool.or_eq_true, beq_iff_eq] at this
    exact ⟨this.1, by simpa using this.2⟩
  · intro hn
    have := hL (by simp [hn])
    simp only [Bool.and_eq_true, Bool.or_eq_true, beq_iff_eq] at this
    exact ⟨this.1, by simpa using this.2⟩
  · intro hn
    have := hE (by simp [hn])
    simpa using this
  · intro hn
    have := hR (by simp [hn])
    simpa using this

/-- Creation preserves the (null-admitting) root policy on well-formed
stores. -/
theorem create_preserves_policy (s : Store) (body : CreateBody)
    (hwf : WFb s = true) (hpol : PolicyOKb s = true) :
    PolicyOKb (create_account_in_account_tree s body).1 = true := by
  simp only [WFb, Bool.and_eq_true] at hwf
  obtain ⟨⟨hcanon, hnodup⟩, hres⟩ := hwf
  have hval := validate_eq_of_canonical hcanon
  cases hcr : create_account_in_account_tree s body with
  | mk s₂ res =>
    cases res with
    | error e =>
      have h2 := create_error_store hcr
      show PolicyOKb s₂ = true
      simp only [h2, hval]
      exact hpol
    | ok a =>
      obtain ⟨hs2, pid, parent, root, hbp, hpar, hroot, hapid, hA, hL, hE, hR⟩ :=
        create_ok_shape hcr
      rw [hval] at hs2 hpar hroot
      show PolicyOKb s₂ = true
      rw [hs2]
      simp only [PolicyOKb, List.all_append, Bool.and_eq_true]
      constructor
      · refine List.all_eq_true.mpr (fun x hx => ?_)
        have hsome := List.all_eq_true.mp hres x hx
        simp only [Option.isSome_iff_exists] at hsome
        obtain ⟨r, hr⟩ := hsome
        have hr' := get_root_account_append (t := [a]) hr
        exact policyRow_transfer hr hr' rfl rfl rfl
          (List.all_eq_true.mp hpol x hx)
      · simp only [List.all_cons, List.all_nil, Bool.and_true]
        have hpideq : parent.id = pid := by simpa using List.find?_some hpar
        rw [hpideq] at hapid
        have hrootA := get_root_account_new_child hpar hroot hapid
        rcases root_canonical_cases hcanon (List.mem_of_find?_eq_some hpar) hroot
          with hproj | hproj | hproj | hproj <;>
          obtain ⟨hn, _, _, _, _⟩ := rootProj_fields hproj
        · obtain ⟨h1, h2⟩ := hA (by rw [hn]; decide)
          refine policyRow_of_fields hrootA ?_ ?_ ?_ ?_ <;> intro hcon <;>
            rw [hn] at hcon <;> first
            | (exact ⟨h1, Or.inl h2⟩)
            | (exact absurd hcon (by decide))
        · obtain ⟨h1, h2⟩ := hL (by rw [hn]; decide)
          refine policyRow_of_fields hrootA ?_ ?_ ?_ ?_ <;> intro hcon <;>
            rw [hn] at hcon <;> first
            | (exact ⟨h1, Or.inl h2⟩)
            | (exact absurd hcon (by decide))
        · have h2 := hE (by rw [hn]; decide)
          refine policyRow_of_fields hrootA ?_ ?_ ?_ ?_ <;> intro hcon <;>
            rw [hn] at hcon <;> first
            | (exact Or.inl h2)
            | (exact absurd hcon (by decide))
        · have h2 := hR (by rw [hn]; decide)
          refine policyRow_of_fields hrootA ?_ ?_ ?_ ?_ <;> intro hcon <;>
            rw [hn] at hcon <;> first
            | (exact Or.inl h2)
            | (exact absurd hcon (by decide))

/-- One row's policy check survives a field rewrite whose new
`account_type` is the old one, null, or a value the type-validation stage
itself vouched for against the (name-stable) root. -/
theorem policyRow_update {s s' : Store} {x x' r r' : Account}
    (h1 : get_root_account s x = some r)
    (h2 : get_root_account s' x' = some r')
    (hname : r'.name = r.name) (hnat : x'.nature = x.nature)
    (hat : x'.account_type = x.account_type ∨ x'.account_type = none ∨
      (x'.account_type = some ("balance_sheet") ∧
        (r.name = ("Assets") ∨ r.name = ("Liability & Equity"))) ∨
      (x'.account_type = some ("p&l") ∧
        (r.name = ("Revenue") ∨ r.name = ("Expenses"))))
    (h : policyRowOKb s x = true) : policyRowOKb s' x' = true := by
  rcases hat with hat | hat | ⟨hat, hcase⟩ | ⟨hat, hcase⟩
  · exact policyRow_transfer h1 h2 hname hnat hat h
  · obtain ⟨pA, pL, _, _⟩ := policyRow_props h1 h
    refine policyRow_of_fields h2 ?_ ?_ ?_ ?_ <;> intro hn <;> rw [hname] at hn
    · exact ⟨hnat.trans (pA hn).1, Or.inr hat⟩
    · exact ⟨hnat.trans (pL hn).1, Or.inr hat⟩
    · exact Or.inr hat
    · exact Or.inr hat
  · obtain ⟨pA, pL, _, _⟩ := policyRow_props h1 h
    refine policyRow_of_fields h2 ?_ ?_ ?_ ?_ <;> intro hn <;> rw [hname] at hn
    · exact ⟨hnat.trans (pA hn).1, Or.inl hat⟩
    · exact ⟨hnat.trans (pL hn).1, Or.inl hat⟩
    · rcases hcase with hc | hc <;> rw [hn] at hc <;> exact absurd hc (by decide)
    · rcases hcase with hc | hc <;> rw [hn] at hc <;> exact absurd hc (by decide)
  · obtain ⟨_, _, _, _⟩ := policyRow_props h1 h
    refine policyRow_of_fields h2 ?_ ?_ ?_ ?_ <;> intro hn <;> rw [hname] at hn
    · rcases hcase with hc | hc <;> rw [hn] at hc <;> exact absurd hc (by decide)
    · rcases hcase with hc | hc <;> rw [hn] at hc <;> exact absurd hc (by decide)
    · exact Or.inl hat
    · exact Or.inl hat

/-- Update preserves the (null-admitting) root policy on well-formed
stores, provided the request renames nothing or targets a non-root row. -/
theorem update_preserves_policy (s : Store) (entries : List DailyEntry)
    (purch expn : List TxRef) (i : Nat) (uf : UpdateFields)
    (s' : Store) (m : String)
    (hwf : WFb s = true) (hpol : PolicyOKb s = true)
    (htgt : uf.name = none ∨ ∀ y, findAcct s i = some y → y.parent_id ≠ none)
    (hok : update_account s entries purch expn i uf = .ok (s', m)) :
    PolicyOKb s' = true := by
  simp only [WFb, Bool.and_eq_true] at hwf
  obtain ⟨⟨_, hnodup⟩, hres⟩ := hwf
  simp only [update_account] at hok
  cases hfind : findAcct s i with
  | none => simp only [hfind] at hok; exact Except.noConfusion hok
  | some a0 =>
    simp only [hfind] at hok
    cases hn1 : updateNameStage s entries uf a0 [] with
    | error e => simp only [hn1] at hok; exact Except.noConfusion hok
    | ok p1 =>
      obtain ⟨a1, c1⟩ := p1
      simp only [hn1] at hok
      cases hcc2 : updateCcStage purch expn uf a1 c1 with
      | error e => simp only [hcc2] at hok; exact Except.noConfusion hok
      | ok p2 =>
        obtain ⟨a2, c2⟩ := p2
        simp only [hcc2] at hok
        cases hty3 : updateTypeStage s uf a2 c2 with
        | error e => simp only [hty3] at hok; exact Except.noConfusion hok
        | ok p3 =>
          obtain ⟨a3, c3⟩ := p3
          simp only [hty3] at hok
          by_cases hemp : c3.isEmpty = true
          · simp only [hemp, if_true] at hok
            cases hok
            exact hpol
          · simp only [hemp, if_false] at hok
            cases hok
            rw [modifyFirst_eq_map_of_nodup hnodup]
            have ha0mem : a0 ∈ s := List.mem_of_find?_eq_some hfind
            have ha0id : a0.id = i := by simpa using List.find?_some hfind
            obtain ⟨h1par, h1id, h1nat, h1at, h1cc, h1nm⟩ := updateNameStage_sem hn1
            obtain ⟨h2nm, h2par, h2id, h2nat, h2at⟩ := updateCcStage_shape hcc2
            obtain ⟨h3nm, h3par, h3id, h3nat, h3cc⟩ := updateTypeStage_shape hty3
            have hts := updateTypeStage_sem hty3
            have hid3 : a3.id = a0.id := by rw [h3id, h2id, h1id]
            have hpar3 : a3.parent_id = a0.parent_id := by rw [h3par, h2par, h1par]
            have hnat3 : a3.nature = a0.nature := by rw [h3nat, h2nat, h1nat]
            have hnm3 : uf.name = none → a3.name = a0.name := fun hu => by
              rw [h3nm, h2nm, h1nm hu]
            have hid : ∀ y ∈ s,
                ((fun y => if y.id == i then a3 else y) y).id = y.id := by
              intro y _
              by_cases hyi : (y.id == i) = true
              · simp only [hyi, if_true]
                rw [hid3, ha0id]
                exact (by simpa using hyi : y.id = i).symm
              · simp [hyi]
            have hpar : ∀ y ∈ s,
                ((fun y => if y.id == i then a3 else y) y).parent_id = y.parent_id := by
              intro y hy
              by_cases hyi : (y.id == i) = true
              · have hyeq : y = a0 := nodup_id_unique hnodup hy ha0mem
                  ((by simpa using hyi : y.id = i).trans ha0id.symm)
                simp only [hyi, if_true]
                rw [hpar3, hyeq]
              · simp [hyi]
            simp only [PolicyOKb]
            refine List.all_eq_true.mpr ?_
            intro x hx
            obtain ⟨y, hy, rfl⟩ := List.mem_map.mp hx
            obtain ⟨r, hr⟩ := Option.isSome_iff_exists.mp
              (List.all_eq_true.mp hres y hy)
            obtain ⟨hr', hrmem⟩ := get_root_account_map hid hpar hy hr
            have hpolrow := List.all_eq_true.mp hpol y hy
            have hrp : r.parent_id = none :=
              (rootOfAux_root_mem (by simpa [get_root_account] using hr)).1
            have hrname : ((fun z => if z.id == i then a3 else z) r).name = r.name := by
              by_cases hri : (r.id == i) = true
              · have hreq : r = a0 := nodup_id_unique hnodup hrmem ha0mem
                  ((by simpa using hri : r.id = i).trans ha0id.symm)
                rcases htgt with hnone | hroot0
                · simp only [hri, if_true]
                  rw [hnm3 hnone, hreq]
                · exact absurd (hreq ▸ hrp) (hroot0 a0 hfind)
              · simp [hri]
            by_cases hyi : (y.id == i) = true
            · have hyeq : y = a0 := nodup_id_unique hnodup hy ha0mem
                ((by simpa using hyi : y.id = i).trans ha0id.symm)
              rw [hyeq] at hr hr' hpolrow ⊢
              have hkey : (if (a0.id == i) = true then a3 else a0) = a3 := by
                simp [ha0id]
              rw [hkey] at hr' ⊢
              have hat3 : a3.account_type = a0.account_type ∨
                  a3.account_type = none ∨
                  (a3.account_type = some ("balance_sheet") ∧
                    (r.name = ("Assets") ∨ r.name = ("Liability & Equity"))) ∨
                  (a3.account_type = some ("p&l") ∧
                    (r.name = ("Revenue") ∨ r.name = ("Expenses"))) := by
                rcases hts with h | h | ⟨root2, hroot2, hc⟩
                · exact Or.inl (h.trans (h2at.trans h1at))
                · exact Or.inr (Or.inl h)
                · have hpp : a2.parent_id = a0.parent_id := h2par.trans h1par
                  have hr2r : root2.name = r.name := by
                    cases hp0 : a0.parent_id with
                    | some q =>
                      have hcongr := get_root_account_congr_start (s := s) hpp
                        (by rw [hpp, hp0]; exact fun hcon => by cases hcon)
                      rw [hcongr, hr] at hroot2
                      cases hroot2
                      rfl
                    | none =>
                      have hra : r = a0 := by
                        have hy0 : get_root_account s a0 = some a0 := by
                          simp [get_root_account, rootOfAux, hp0]
                        rw [hr] at hy0
                        exact Option.some.inj hy0
                      have h2r : root2 = a2 := by
                        have h2p : a2.parent_id = none := by rw [hpp, hp0]
                        have ha2 : get_root_account s a2 = some a2 := by
                          simp [get_root_account, rootOfAux, h2p]
                        rw [hroot2] at ha2
                        exact Option.some.inj ha2
                      have hun : uf.name = none := by
                        rcases htgt with h | hroot0
                        · exact h
                        · exact absurd hp0 (hroot0 a0 hfind)
                      rw [h2r, hra, h2nm, h1nm hun]
                  rcases hc with ⟨hat, hnm⟩ | ⟨hat, hnm⟩
                  · rw [hr2r] at hnm
                    exact Or.inr (Or.inr (Or.inl ⟨hat, hnm⟩))
                  · rw [hr2r] at hnm
                    exact Or.inr (Or.inr (Or.inr ⟨hat, hnm⟩))
              exact policyRow_update hr hr' hrname hnat3 hat3 hpolrow
            · have hkey : (if (y.id == i) = true then a3 else y) = y := by
                simp [hyi]
              rw [hkey] at hr' ⊢
              exact policyRow_transfer hr hr' hrname rfl rfl hpolrow

/- ### Code-generation string lemmas -/

set_option maxRecDepth 4000 in
theorem zfill3_roundtrip : ∀ k, k < 1000 → strToNat0 (zfill3 k) = k := by decide

set_option maxRecDepth 4000 in
theorem zfill3_shape : ∀ k, k < 1000 →
    (zfill3 k).data.length = 3 ∧ (zfill3 k).data.all isDigitChar = true := by decide

theorem list3_of_len : ∀ {l : List Char}, l.length = 3 → l.all isDigitChar = true →
    ∃ a b c, l = [a, b, c] ∧ isDigitChar a = true ∧ isDigitChar b = true ∧
      isDigitChar c = true
  | [], h, _ => by simp only [List.length_nil] at h; omega
  | [_], h, _ => by simp only [List.length_cons, List.length_nil] at h; omega
  | [_, _], h, _ => by simp only [List.length_cons, List.length_nil] at h; omega
  | [a, b, c], _, hd => by
    simp only [List.all_cons, List.all_nil, Bool.and_eq_true, Bool.and_true] at hd
    exact ⟨a, b, c, rfl, hd.1, hd.2.1, hd.2.2⟩
  | _ :: _ :: _ :: _ :: _, h, _ => by
    simp only [List.length_cons] at h
    omega

theorem strLtAux_append_cancel :
    ∀ (pre a b : List Char), strLtAux (pre ++ a) (pre ++ b) = strLtAux a b
  | [], _, _ => rfl
  | c :: pre, a, b => by
    simp only [List.cons_append, strLtAux, Nat.lt_irrefl, if_false]
    exact strLtAux_append_cancel pre a b

theorem strLt3_false_val_le {c0 c1 c2 d0 d1 d2 : Char}
    (hc0 : isDigitChar c0 = true) (hc1 : isDigitChar c1 = true)
    (hc2 : isDigitChar c2 = true) (hd0 : isDigitChar d0 = true)
    (hd1 : isDigitChar d1 = true) (hd2 : isDigitChar d2 = true)
    (h : strLtAux [c0, c1, c2] [d0, d1, d2] = false) :
    ((0 * 10 + (d0.toNat - 48)) * 10 + (d1.toNat - 48)) * 10 + (d2.toNat - 48) ≤
      ((0 * 10 + (c0.toNat - 48)) * 10 + (c1.toNat - 48)) * 10 + (c2.toNat - 48) := by
  simp only [isDigitChar, Bool.and_eq_true, decide_eq_true_eq] at hc0 hc1 hc2 hd0 hd1 hd2
  simp only [strLtAux] at h
  split_ifs at h <;> simp at h <;> omega

theorem strLt3_true_val_le {c0 c1 c2 d0 d1 d2 : Char}
    (hc0 : isDigitChar c0 = true) (hc1 : isDigitChar c1 = true)
    (hc2 : isDigitChar c2 = true) (hd0 : isDigitChar d0 = true)
    (hd1 : isDigitChar d1 = true) (hd2 : isDigitChar d2 = true)
    (h : strLtAux [c0, c1, c2] [d0, d1, d2] = true) :
    ((0 * 10 + (c0.toNat - 48)) * 10 + (c1.toNat - 48)) * 10 + (c2.toNat - 48) ≤
      ((0 * 10 + (d0.toNat - 48)) * 10 + (d1.toNat - 48)) * 10 + (d2.toNat - 48) := by
  simp only [isDigitChar, Bool.and_eq_true, decide_eq_true_eq] at hc0 hc1 hc2 hd0 hd1 hd2
  simp only [strLtAux] at h
  split_ifs at h <;> simp at h <;> omega

theorem suffix3Val_of_shape {pre : List Char} {a : Account} (h : Shape3 pre a) :
    ∃ s0 s1 s2, a.code.data = pre ++ [s0, s1, s2] ∧
      isDigitChar s0 = true ∧ isDigitChar s1 = true ∧ isDigitChar s2 = true ∧
      suffix3Val a.code =
        ((0 * 10 + (s0.toNat - 48)) * 10 + (s1.toNat - 48)) * 10 + (s2.toNat - 48) := by
  obtain ⟨s0, s1, s2, hd, h0, h1, h2⟩ := h
  refine ⟨s0, s1, s2, hd, h0, h1, h2, ?_⟩
  simp only [suffix3Val, strTakeRightD, hd]
  have hlen : (pre ++ [s0, s1, s2]).length - 3 = pre.length := by
    simp only [List.length_append, List.length_cons, List.length_nil]
    omega
  rw [hlen, List.drop_left]
  simp [strToNat0]

theorem shape_val_le {pre : List Char} {m x : Account}
    (hm : Shape3 pre m) (hx : Shape3 pre x) :
    (strLtB m.code x.code = false → suffix3Val x.code ≤ suffix3Val m.code) ∧
    (strLtB m.code x.code = true → suffix3Val m.code ≤ suffix3Val x.code) := by
  obtain ⟨a0, a1, a2, hma, ha0, ha1, ha2, hva⟩ := suffix3Val_of_shape hm
  obtain ⟨b0, b1, b2, hxb, hb0, hb1, hb2, hvb⟩ := suffix3Val_of_shape hx
  have hlt : strLtB m.code x.code = strLtAux [a0, a1, a2] [b0, b1, b2] := by
    simp only [strLtB, hma, hxb, strLtAux_append_cancel]
  rw [hlt, hva, hvb]
  exact ⟨strLt3_false_val_le ha0 ha1 ha2 hb0 hb1 hb2,
    strLt3_true_val_le ha0 ha1 ha2 hb0 hb1 hb2⟩

/-- The descending-order fold of `lastByCodeDesc` returns an element (or
the start accumulator) whose three-digit suffix value dominates the list,
as long as every row in sight shares one code prefix. -/
theorem foldDesc_sem {pre : List Char} :
    ∀ (l : List Account) (acc : Option Account) (r : Account),
      (∀ a ∈ l, Shape3 pre a) → (∀ m, acc = some m → Shape3 pre m) →
      l.foldl
        (fun acc x =>
          match acc with
          | none => some x
          | some m => if strLtB m.code x.code then some x else some m) acc = some r →
      (r ∈ l ∨ acc = some r) ∧ (∀ y ∈ l, suffix3Val y.code ≤ suffix3Val r.code) ∧
        (∀ m, acc = some m → suffix3Val m.code ≤ suffix3Val r.code)
  | [], acc, r, _, _, h => by
    simp only [List.foldl_nil] at h
    refine ⟨Or.inr h, by simp, fun m hm => ?_⟩
    rw [hm] at h
    cases h
    exact le_refl _
  | x :: xs, acc, r, hsh, hacc, h => by
    simp only [List.foldl_cons] at h
    have hshx : Shape3 pre x := hsh x (List.mem_cons_self x xs)
    have hshxs : ∀ a ∈ xs, Shape3 pre a := fun a ha => hsh a (List.mem_cons_of_mem _ ha)
    cases acc with
    | none =>
      obtain ⟨hmem, hall, hlast⟩ := foldDesc_sem xs (some x) r hshxs
        (fun m hm => by cases hm; exact hshx) h
      refine ⟨?_, ?_, fun m hm => by cases hm⟩
      · rcases hmem with hm | hm
        · exact Or.inl (List.mem_cons_of_mem _ hm)
        · cases hm
          exact Or.inl (List.mem_cons_self _ _)
      · intro y hy
        rcases List.mem_cons.mp hy with rfl | hy'
        · exact hlast y rfl
        · exact hall y hy'
    | some m0 =>
      have hshm0 : Shape3 pre m0 := hacc m0 rfl
      by_cases hlt : strLtB m0.code x.code = true
      · simp only [hlt, if_true] at h
        obtain ⟨hmem, hall, hlast⟩ := foldDesc_sem xs (some x) r hshxs
          (fun m hm => by cases hm; exact hshx) h
        have hm0x : suffix3Val m0.code ≤ suffix3Val x.code := (shape_val_le hshm0 hshx).2 hlt
        refine ⟨?_, ?_, fun m hm => ?_⟩
        · rcases hmem with hm | hm
          · exact Or.inl (List.mem_cons_of_mem _ hm)
          · cases hm
            exact Or.inl (List.mem_cons_self _ _)
        · intro y hy
          rcases List.mem_cons.mp hy with rfl | hy'
          · exact hlast y rfl
          · exact hall y hy'
        · cases hm
          exact le_trans hm0x (hlast x rfl)
      · simp only [Bool.not_eq_true] at hlt
        simp only [hlt, if_false] at h
        obtain ⟨hmem, hall, hlast⟩ := foldDesc_sem xs (some m0) r hshxs
          (fun m hm => by cases hm; exact hshm0) h
        have hxm0 : suffix3Val x.code ≤ suffix3Val m0.code := (shape_val_le hshm0 hshx).1 hlt
        refine ⟨?_, ?_, fun m hm => ?_⟩
        · rcases hmem with hm | hm
          · exact Or.inl (List.mem_cons_of_mem _ hm)
          · exact Or.inr hm
        · intro y hy
          rcases List.mem_cons.mp hy with rfl | hy'
          · exact le_trans hxm0 (hlast m0 rfl)
          · exact hall y hy'
        · cases hm
          exact hlast m0 rfl

/-- `order_by(code.desc()).first()` over same-prefix rows returns a member
with the greatest three-digit suffix value. -/
theorem lastByCodeDesc_sem {pre : List Char} {l : List Account} {r : Account}
    (hsh : ∀ a ∈ l, Shape3 pre a) (h : lastByCodeDesc l = some r) :
    r ∈ l ∧ ∀ y ∈ l, suffix3Val y.code ≤ suffix3Val r.code := by
  obtain ⟨hmem, hall, _⟩ := foldDesc_sem l none r hsh (fun m hm => by cases hm) h
  refine ⟨?_, hall⟩
  rcases hmem with hm | hm
  · exact hm
  · cases hm

theorem foldDesc_ne_none :
    ∀ (l : List Account) (m : Account),
      l.foldl
        (fun acc x =>
          match acc with
          | none => some x
          | some m => if strLtB m.code x.code then some x else some m)
        (some m) ≠ none
  | [], m => by simp
  | x :: xs, m => by
    simp only [List.foldl_cons]
    by_cases hlt : strLtB m.code x.code = true
    · simp only [hlt, if_true]
      exact foldDesc_ne_none xs x
    · simp only [Bool.not_eq_true] at hlt
      simp only [hlt, if_false]
      exact foldDesc_ne_none xs m

/-- `order_by(code.desc()).first()` is empty only on an empty row list. -/
theorem lastByCodeDesc_none {l : List Account} (h : lastByCodeDesc l = none) :
    l = [] := by
  cases l with
  | nil => rfl
  | cons x xs => exact absurd h (foldDesc_ne_none xs x)

/-- Pairwise-distinct codes identify rows. -/
theorem nodup_code_unique {s : Store} (h : NodupCodesb s = true) :
    ∀ {x y : Account}, x ∈ s → y ∈ s → x.code = y.code → x = y := by
  induction s with
  | nil => intro x y hx; cases hx
  | cons b bs ih =>
    intro x y hx hy hxy
    simp only [NodupCodesb, nodupB, Bool.and_eq_true, Bool.not_eq_eq_eq_not,
      Bool.not_true, List.contains_eq_any_beq, List.map_cons] at h
    have hnotin : ∀ z ∈ bs, z.code ≠ b.code := by
      intro z hz hcon
      have : ((List.map (fun a => a.code) bs).any fun v => b.code == v) = true :=
        List.any_eq_true.mpr ⟨z.code, List.mem_map_of_mem _ hz, by simp [hcon]⟩
      rw [this] at h
      cases h.1
    rcases List.mem_cons.mp hx with rfl | hx' <;>
      rcases List.mem_cons.mp hy with rfl | hy'
    · rfl
    · exact absurd hxy.symm (hnotin y hy')
    · exact absurd hxy (hnotin x hx')
    · exact ih (by simpa [NodupCodesb, nodupB] using h.2) hx' hy' hxy

theorem childRows_mem {s : Store} {i : Nat} {y : Account} :
    y ∈ childRows s i ↔ y ∈ s ∧ y.parent_id = some i := by
  simp [childRows, List.mem_filter]

/-- The trailing-three-digit value of an appended three-character tail. -/
theorem suffix3Val_append {s t : String} (h : t.data.length = 3) :
    suffix3Val (s ++ t) = strToNat0 t := by
  simp only [suffix3Val, strTakeRightD, String.data_append]
  have hlen : (s.data ++ t.data).length - 3 = s.data.length := by
    simp only [List.length_append]
    omega
  rw [hlen, List.drop_left]

/-- A code ending in `000` has trailing-three-digit value zero. -/
theorem ends000_val {c : String} (h : strEndsWithD c ("000") = true) :
    suffix3Val c = 0 := by
  obtain ⟨u, hu⟩ := List.isSuffixOf_iff_suffix.mp h
  have hlen : c.data.length - 3 = u.length := by
    rw [← hu]
    simp only [List.length_append, List.length_cons, List.length_nil]
    omega
  simp only [suffix3Val, strTakeRightD, hlen]
  rw [← hu, List.drop_left]
  decide

/-- Resolving the parent row a non-root account points at, through the
per-row well-formedness test. -/
theorem childrenWF_res {s : Store} (hw : childrenWFb childCodeOKb s = true)
    {b : Account} (hb : b ∈ s) {pid : Nat} (hp : b.parent_id = some pid) :
    ∃ q, findAcct s pid = some q ∧ q ∈ s ∧ q.id = pid ∧ childCodeOKb q b = true := by
  have hall := List.all_eq_true.mp hw b hb
  simp only [childrenWFb] at hall
  simp only [hp] at hall
  cases hfq : findAcct s pid with
  | none =>
    simp only [hfq] at hall
    exact Bool.noConfusion hall
  | some q =>
    simp only [hfq] at hall
    exact ⟨q, rfl, List.mem_of_find?_eq_some hfq, by simpa using List.find?_some hfq, hall⟩

/-- With distinct ids, every row of `childRows s p.id` passes the nesting
test against `p` itself. -/
theorem children_codeOK {s : Store} (hw : childrenWFb childCodeOKb s = true)
    (hnodup : NodupIdsb s = true) {p : Account} (hp : p ∈ s) :
    ∀ y ∈ childRows s p.id, childCodeOKb p y = true := by
  intro y hy
  obtain ⟨hys, hypar⟩ := childRows_mem.mp hy
  obtain ⟨q, hfq, hqs, hqid, hok⟩ := childrenWF_res hw hys hypar
  have hqp : q = p := nodup_id_unique hnodup hqs hp hqid
  rw [← hqp]
  exact hok

/-- Splitting a code with a three-digit trailing block off its first `n`
characters. -/
theorem code_decomp_core {b : Account} {n : Nat}
    (hlen : b.code.data.length = n + 3)
    (hdig : isDigitStr (strTakeRightD b.code 3) = true) :
    ∃ s0 s1 s2, b.code.data = b.code.data.take n ++ [s0, s1, s2] ∧
      isDigitChar s0 = true ∧ isDigitChar s1 = true ∧ isDigitChar s2 = true := by
  have hidx : b.code.data.length - 3 = n := by omega
  have hsfx : strTakeRightD b.code 3 = String.mk (b.code.data.drop n) := by
    rw [strTakeRightD, hidx]
  have hdlen : (b.code.data.drop n).length = 3 := by
    rw [List.length_drop, hlen]
    omega
  rw [hsfx] at hdig
  simp only [isDigitStr, Bool.and_eq_true, Bool.not_eq_eq_eq_not, Bool.not_false] at hdig
  obtain ⟨s0, s1, s2, hd3, h0, h1, h2⟩ := list3_of_len hdlen hdig.2
  refine ⟨s0, s1, s2, ?_, h0, h1, h2⟩
  rw [← hd3]
  exact (List.take_append_drop n b.code.data).symm

/-- A row passing the nesting test decomposes as the scheme prefix of its
parent followed by three digits of nonzero value. -/
theorem childCode_decomp {q b : Account} (h : childCodeOKb q b = true) :
    Shape3 (preOf q) b ∧ 1 ≤ suffix3Val b.code := by
  cases hq : q.parent_id with
  | none =>
    simp only [childCodeOKb, hq, Bool.and_eq_true, beq_iff_eq, decide_eq_true_eq] at h
    obtain ⟨⟨⟨⟨hlen, htake⟩, hdig⟩, _⟩, hval⟩ := h
    have hlen4 : b.code.data.length = 1 + 3 := hlen
    obtain ⟨s0, s1, s2, hdc, h0, h1, h2⟩ := code_decomp_core hlen4 hdig
    have htake1 : b.code.data.take 1 = q.code.data.take 1 := by
      have := congrArg String.data htake
      simpa [strTakeD] using this
    refine ⟨⟨s0, s1, s2, ?_, h0, h1, h2⟩, hval⟩
    rw [preOf, hq, ← htake1]
    exact hdc
  | some pid =>
    simp only [childCodeOKb, hq, Bool.and_eq_true, beq_iff_eq, decide_eq_true_eq] at h
    obtain ⟨⟨⟨⟨hlen, htake⟩, hdig⟩, _⟩, hval⟩ := h
    have hlenq : b.code.data.length = q.code.data.length + 3 := hlen
    obtain ⟨s0, s1, s2, hdc, h0, h1, h2⟩ := code_decomp_core hlenq hdig
    have htakeq : b.code.data.take q.code.data.length = q.code.data := by
      have := congrArg String.data htake
      simpa [strTakeD] using this
    refine ⟨⟨s0, s1, s2, ?_, h0, h1, h2⟩, hval⟩
    rw [preOf, hq, ← htakeq]
    exact hdc

theorem shapeS_code {pre : List Char} {a : Account} :
    ShapeS pre a.code ↔ Shape3 pre a := Iff.rfl

/-- Under canonical roots, every parentless row carries one of the four
root codes. -/
theorem root_code_cases {s : Store} (hc : CanonicalRootsb s = true) {b : Account}
    (hb : b ∈ s) (hpar : b.parent_id = none) :
    b.code = ("1000") ∨ b.code = ("2000") ∨ b.code = ("3000") ∨ b.code = ("4000") := by
  obtain ⟨r1, r2, r3, r4, hrows, h1, h2, h3, h4⟩ := canonicalRoots_rows hc
  have hbr : b ∈ rootRows s := List.mem_filter.mpr ⟨hb, by simp [hpar]⟩
  rw [hrows] at hbr
  simp only [List.mem_cons, List.not_mem_nil, or_false] at hbr
  rcases hbr with rfl | rfl | rfl | rfl
  · exact Or.inl (rootProj_fields h1).2.1
  · exact Or.inr (Or.inl (rootProj_fields h2).2.1)
  · exact Or.inr (Or.inr (Or.inl (rootProj_fields h3).2.1))
  · exact Or.inr (Or.inr (Or.inr (rootProj_fields h4).2.1))

/-- Two canonical roots sharing a leading code character carry the same
code. -/
theorem root_pre_inj {s : Store} (hc : CanonicalRootsb s = true) {p q : Account}
    (hp : p ∈ s) (hq : q ∈ s) (hpp : p.parent_id = none) (hqq : q.parent_id = none)
    (h : q.code.data.take 1 = p.code.data.take 1) : q.code = p.code := by
  rcases root_code_cases hc hp hpp with h1 | h1 | h1 | h1 <;>
    rcases root_code_cases hc hq hqq with h2 | h2 | h2 | h2 <;>
    rw [h1, h2] at h ⊢ <;> first | rfl | (exact absurd h (by decide))

/-- The scheme-prefix decomposition with a nonzero suffix passes the
nesting test, as long as the parent code is nonempty. -/
theorem childCodeOK_of_shape {p a : Account}
    (hsh : Shape3 (preOf p) a) (hval : 1 ≤ suffix3Val a.code)
    (hplen : 1 ≤ p.code.data.length) :
    childCodeOKb p a = true := by
  obtain ⟨s0, s1, s2, hd, h0, h1, h2⟩ := hsh
  cases hp : p.parent_id with
  | none =>
    rw [preOf, hp] at hd
    obtain ⟨c0, cs, hcs⟩ : ∃ c0 cs, p.code.data = c0 :: cs := by
      cases hpc : p.code.data with
      | nil => rw [hpc] at hplen; simp at hplen
      | cons c0 cs => exact ⟨c0, cs, rfl⟩
    rw [hcs] at hd
    simp only [List.take_succ_cons, List.take_zero, List.cons_append,
      List.nil_append] at hd
    have hlen : a.code.data.length = 4 := by rw [hd]; rfl
    have hsfx : strTakeRightD a.code 3 = String.mk [s0, s1, s2] := by
      simp only [strTakeRightD, hlen, hd]
      rfl
    simp only [childCodeOKb, hp, Bool.and_eq_true, beq_iff_eq, decide_eq_true_eq]
    refine ⟨⟨⟨⟨hlen, ?_⟩, ?_⟩, ?_⟩, hval⟩
    · simp only [strTakeD, hd, hcs, List.take_succ_cons, List.take_zero]
    · rw [hsfx]
      simp [isDigitStr, h0, h1, h2]
    · rw [hsfx]
      rfl
  | some pid =>
    rw [preOf, hp] at hd
    have hlen : a.code.data.length = p.code.data.length + 3 := by
      rw [hd]
      simp only [List.length_append, List.length_cons, List.length_nil]
    have hsfx : strTakeRightD a.code 3 = String.mk [s0, s1, s2] := by
      simp only [strTakeRightD, hlen]
      have hidx : p.code.data.length + 3 - 3 = p.code.data.length := by omega
      rw [hidx, hd, List.drop_left]
    simp only [childCodeOKb, hp, Bool.and_eq_true, beq_iff_eq, decide_eq_true_eq]
    refine ⟨⟨⟨⟨hlen, ?_⟩, ?_⟩, ?_⟩, hval⟩
    · show String.mk (a.code.data.take p.code.data.length) = p.code
      rw [hd, List.take_left]
    · rw [hsfx]
      simp [isDigitStr, h0, h1, h2]
    · rw [hsfx]
      rfl

theorem codeInv_parts {s : Store} (h : CodeInvb s = true) :
    CanonicalRootsb s = true ∧ childrenWFb childCodeOKb s = true ∧
      NodupCodesb s = true ∧
      ∀ b ∈ s, 4 ≤ b.code.data.length ∧ isDigitStr b.code = true := by
  simp only [CodeInvb, Bool.and_eq_true] at h
  obtain ⟨⟨⟨h1, h2⟩, h3⟩, h4⟩ := h
  refine ⟨h1, h2, h3, fun b hb => ?_⟩
  have hb4 := List.all_eq_true.mp h4 b hb
  simp only [Bool.and_eq_true, decide_eq_true_eq] at hb4
  exact hb4

/-- The code the generator emits on a well-formed store with room under
the parent: it is the parent's scheme prefix plus three digits, its suffix
value is nonzero, and it strictly exceeds every existing sibling suffix. -/
theorem generate_code_sem {s : Store} {p : Account}
    (hinv : CodeInvb s = true) (hnodup : NodupIdsb s = true)
    (hp : p ∈ s) (hov : noOverflowAtb s p = true) :
    ShapeS (preOf p) (generate_code s (some p)) ∧
    1 ≤ suffix3Val (generate_code s (some p)) ∧
    ∀ y ∈ childRows s p.id, suffix3Val y.code < suffix3Val (generate_code s (some p)) := by
  obtain ⟨hcanon, hwf, hcodes, _⟩ := codeInv_parts hinv
  have hch : ∀ y ∈ childRows s p.id, childCodeOKb p y = true :=
    children_codeOK hwf hnodup hp
  have hsh : ∀ y ∈ childRows s p.id, Shape3 (preOf p) y :=
    fun y hy => (childCode_decomp (hch y hy)).1
  cases hlast : lastByCodeDesc (childRows s p.id) with
  | none =>
    have hempty : childRows s p.id = [] := lastByCodeDesc_none hlast
    cases hppar : p.parent_id with
    | none =>
      have hcond : (p.code.length == 4 && strEndsWithD p.code ("000")) = true := by
        rcases root_code_cases hcanon hp hppar with h4 | h4 | h4 | h4 <;> rw [h4] <;> decide
      have hval : generate_code s (some p) = strTakeD p.code 1 ++ ("001") := by
        simp only [generate_code, hlast, hcond, if_true]
      refine ⟨?_, ?_, ?_⟩
      · rw [hval]
        refine ⟨'0', '0', '1', ?_, by decide, by decide, by decide⟩
        rw [String.data_append]
        simp [strTakeD, preOf, hppar]
      · rw [hval, suffix3Val_append (by rfl)]
        decide
      · intro y hy
        rw [hempty] at hy
        cases hy
    | some pid =>
      obtain ⟨q, hfq, hqs, hqid, hok⟩ := childrenWF_res hwf hp hppar
      have hvp : 1 ≤ suffix3Val p.code := (childCode_decomp hok).2
      have hends : strEndsWithD p.code ("000") = false := by
        cases he : strEndsWithD p.code ("000")
        · rfl
        · have := ends000_val he
          omega
      have hcond : (p.code.length == 4 && strEndsWithD p.code ("000")) = false := by
        simp [hends]
      have hval : generate_code s (some p) = p.code ++ ("001") := by
        simp only [generate_code, hlast, hcond, Bool.false_eq_true, if_false]
      refine ⟨?_, ?_, ?_⟩
      · rw [hval]
        refine ⟨'0', '0', '1', ?_, by decide, by decide, by decide⟩
        rw [String.data_append]
        simp [preOf, hppar]
      · rw [hval, suffix3Val_append (by rfl)]
        decide
      · intro y hy
        rw [hempty] at hy
        cases hy
  | some last =>
    obtain ⟨hlmem, hlmax⟩ := lastByCodeDesc_sem hsh hlast
    have hn998 : suffix3Val last.code ≤ 998 := by
      have := List.all_eq_true.mp hov last hlmem
      simpa using this
    have hlt1000 : suffix3Val last.code + 1 < 1000 := by omega
    obtain ⟨hz3, hzd⟩ := zfill3_shape _ hlt1000
    obtain ⟨z0, z1, z2, hzl, hz0, hz1, hz2⟩ := list3_of_len hz3 hzd
    have hround := zfill3_roundtrip _ hlt1000
    have hz3' : (zfill3 (suffix3Val last.code + 1)).data.length = 3 := hz3
    cases hppar : p.parent_id with
    | none =>
      have hcond : (p.code.length == 4 && strEndsWithD p.code ("000")) = true := by
        rcases root_code_cases hcanon hp hppar with h4 | h4 | h4 | h4 <;> rw [h4] <;> decide
      have hval : generate_code s (some p) =
          strTakeD p.code 1 ++ zfill3 (suffix3Val last.code + 1) := by
        simp only [generate_code, hlast, hcond, if_true]
        rfl
      refine ⟨?_, ?_, ?_⟩
      · rw [hval]
        refine ⟨z0, z1, z2, ?_, hz0, hz1, hz2⟩
        rw [String.data_append, hzl]
        simp [strTakeD, preOf, hppar]
      · rw [hval, suffix3Val_append hz3', hround]
        omega
      · intro y hy
        have := hlmax y hy
        rw [hval, suffix3Val_append hz3', hround]
        omega
    | some pid =>
      obtain ⟨q, hfq, hqs, hqid, hok⟩ := childrenWF_res hwf hp hppar
      have hvp : 1 ≤ suffix3Val p.code := (childCode_decomp hok).2
      have hends : strEndsWithD p.code ("000") = false := by
        cases he : strEndsWithD p.code ("000")
        · rfl
        · have := ends000_val he
          omega
      have hcond : (p.code.length == 4 && strEndsWithD p.code ("000")) = false := by
        simp [hends]
      have hval : generate_code s (some p) =
          p.code ++ zfill3 (suffix3Val last.code + 1) := by
        simp only [generate_code, hlast, hcond, Bool.false_eq_true, if_false]
        by_cases h4 : (p.code.length == 4) = true
        · simp only [h4, if_true]
          rfl
        · simp only [Bool.not_eq_true] at h4
          simp only [h4, Bool.false_eq_true, if_false]
          rfl
      refine ⟨?_, ?_, ?_⟩
      · rw [hval]
        refine ⟨z0, z1, z2, ?_, hz0, hz1, hz2⟩
        rw [String.data_append, hzl]
        simp [preOf, hppar]
      · rw [hval, suffix3Val_append hz3', hround]
        omega
      · intro y hy
        have := hlmax y hy
        rw [hval, suffix3Val_append hz3', hround]
        omega

/-- On a well-formed store with room under the resolved parent, the
generated code collides with no existing row anywhere in the tree. -/
theorem generate_code_fresh {s : Store} {p : Account}
    (hinv : CodeInvb s = true) (hnodup : NodupIdsb s = true)
    (hp : p ∈ s) (hov : noOverflowAtb s p = true) :
    s.all (fun b => !(b.code == generate_code s (some p))) = true := by
  obtain ⟨hcanon, hwf, hcodes, hall4⟩ := codeInv_parts hinv
  obtain ⟨hshape, hval, hgt⟩ := generate_code_sem hinv hnodup hp hov
  refine List.all_eq_true.mpr fun b hb => ?_
  simp only [Bool.not_eq_true', beq_eq_false_iff_ne, ne_eq]
  intro hbc
  obtain ⟨g0, g1, g2, hgd, _, _, _⟩ := hshape
  cases hbp : b.parent_id with
  | none =>
    have hv0 : suffix3Val b.code = 0 := by
      rcases root_code_cases hcanon hb hbp with h4 | h4 | h4 | h4 <;> rw [h4] <;> decide
    have hveq := congrArg suffix3Val hbc
    omega
  | some pid =>
    obtain ⟨q, hfq, hqs, hqid, hok⟩ := childrenWF_res hwf hb hbp
    obtain ⟨hbsh, hbval⟩ := childCode_decomp hok
    obtain ⟨b0, b1, b2, hbd, _, _, _⟩ := hbsh
    have hdata : b.code.data = (generate_code s (some p)).data := by rw [hbc]
    rw [hbd, hgd] at hdata
    have hlenpre : (preOf q).length = (preOf p).length := by
      have hlen := congrArg List.length hdata
      simp only [List.length_append, List.length_cons, List.length_nil] at hlen
      omega
    obtain ⟨hpre, _⟩ := List.append_inj hdata hlenpre
    have hqp : q = p := by
      cases hqpar : q.parent_id with
      | none =>
        cases hppar : p.parent_id with
        | none =>
          have h1 : preOf q = q.code.data.take 1 := by simp [preOf, hqpar]
          have h2 : preOf p = p.code.data.take 1 := by simp [preOf, hppar]
          have hcq : q.code = p.code :=
            root_pre_inj hcanon hp hqs hppar hqpar (by rw [← h1, ← h2, hpre])
          exact nodup_code_unique hcodes hqs hp hcq
        | some pp =>
          exfalso
          have h1 : (preOf q).length ≤ 1 := by
            simp [preOf, hqpar, List.length_take]
          have h2 : (preOf p).length = p.code.data.length := by simp [preOf, hppar]
          have h4 := (hall4 p hp).1
          omega
      | some qq =>
        cases hppar : p.parent_id with
        | none =>
          exfalso
          have h1 : (preOf p).length ≤ 1 := by
            simp [preOf, hppar, List.length_take]
          have h2 : (preOf q).length = q.code.data.length := by simp [preOf, hqpar]
          have h4 := (hall4 q hqs).1
          omega
        | some pp =>
          have h1 : preOf q = q.code.data := by simp [preOf, hqpar]
          have h2 : preOf p = p.code.data := by simp [preOf, hppar]
          have hdq : q.code.data = p.code.data := by rw [← h1, ← h2, hpre]
          exact nodup_code_unique hcodes hqs hp (congrArg String.mk hdq)
    have hbch : b ∈ childRows s p.id :=
      childRows_mem.mpr ⟨hb, by rw [hbp, ← hqid, hqp]⟩
    have hlt := hgt b hbch
    have hveq := congrArg suffix3Val hbc
    omega

/-- On success, the created row carries exactly the generated code for its
resolved parent, and is appended to the validated table. -/
theorem create_ok_code {s : Store} {body : CreateBody} {s₂ : Store} {a : Account}
    (h : create_account_in_account_tree s body = (s₂, .ok a)) :
    s₂ = validate_root_accounts s ++ [a] ∧
    ∃ pid parent,
      body.parent_id = some pid ∧
      findAcct (validate_root_accounts s) pid = some parent ∧
      a.parent_id = some parent.id ∧
      a.code = generate_code (validate_root_accounts s) (some parent) := by
  simp only [create_account_in_account_tree] at h
  cases hex : extract_body body with
  | error e => rw [hex] at h; simp at h
  | ok t =>
    obtain ⟨nm, pidv, natv, ccv, atv⟩ := t
    have ht := extract_body_ok hex
    simp only [Prod.mk.injEq] at ht
    obtain ⟨hnm, hpidv, hnat, hccv, hatv⟩ := ht
    rw [hex] at h
    simp only [] at h
    split at h
    · simp at h
    · cases hpv : pidv with
      | none => simp only [hpv] at h; simp at h
      | some pid =>
        simp only [hpv] at h
        split at h
        · simp at h
        · cases hpar : findAcct (validate_root_accounts s) pid with
          | none => simp only [hpar] at h; simp at h
          | some parent =>
            simp only [hpar] at h
            cases hroot : get_root_account (validate_root_accounts s) parent with
            | none => simp only [hroot] at h; simp at h
            | some root =>
              simp only [hroot] at h
              have hfin : ∀ {nat2 at2}, finishCreate (validate_root_accounts s) nm nat2
                    parent ccv at2 = (s₂, Except.ok a) →
                  s₂ = validate_root_accounts s ++ [a] ∧ a.parent_id = some parent.id ∧
                    a.code = generate_code (validate_root_accounts s) (some parent) := by
                intro nat2 at2 hfc
                simp only [finishCreate, fill_new_account_info_eq hroot] at hfc
                simp only [Prod.mk.injEq, Except.ok.injEq] at hfc
                refine ⟨by rw [← hfc.1, hfc.2], ?_, ?_⟩ <;> rw [← hfc.2]
              repeat' split at h
              all_goals first
                | (simp at h
                   done)
                | (rcases hfin h with ⟨hs2, hpid2, hcode2⟩
                   exact ⟨hs2, pid, parent, by rw [← hpidv, hpv], hpar, hpid2, hcode2⟩)

/-- C7 witness: creating `Volume Rebate` under the Assets root with no
explicit `cc_required` yields `cc_required = true` through the
rebate-keyword rule. -/
theorem C7_cc_required_defaulting_witness :
    create_account_in_account_tree rootsStore vrBody = (rootsStore ++ [vrAcct], .ok vrAcct) ∧
    vrAcct.cc_required = ccDefault assetsRoot (pyStrip vrBody.name) := by
  constructor
  · rfl
  · exact (C7_cc_required_defaulting rootsStore (rootsStore ++ [vrAcct]) vrBody 1
      assetsRoot assetsRoot vrAcct rfl rfl (by decide) (by decide) (by rfl)).1

/-- C4 counterexample: updating `Cash` (an Assets descendant satisfying the
strict table) with `account_type := some none` succeeds and commits a row
whose stored type is null, so the strict nature/type table of the claim
fails after this mutation path while the root is still Assets. -/
theorem C4_root_policy_counterexample :
    PolicyStrictb cashStore = true ∧
    update_account cashStore [] [] [] 5 { account_type := some none } =
      .ok (clearedCashStore,
        ("Account updated successfully. Changed fields: account type")) ∧
    findAcct clearedCashStore 5 = some clearedCash ∧
    get_root_account clearedCashStore clearedCash = some assetsRoot ∧
    clearedCash.account_type = none ∧
    PolicyStrictb clearedCashStore = false :=
  ⟨by decide, by rfl, by decide, by decide, by decide, by decide⟩

/-- C4 (amended): with a null `account_type` also admitted, the root-policy
table is preserved by creation on well-formed stores and by every update
that renames nothing or targets a non-root row; conflicting explicit
`nature`/`account_type` values at creation are rejected for each of the
four roots, and the creation nature defaults for Expenses and Revenue
descendants are debit and credit. -/
theorem C4_root_policy_amended :
    (∀ (s : Store) (body : CreateBody), WFb s = true → PolicyOKb s = true →
      PolicyOKb (create_account_in_account_tree s body).1 = true) ∧
    (∀ (s : Store) (entries : List DailyEntry) (purch expn : List TxRef)
      (i : Nat) (uf : UpdateFields) (s₂ : Store) (m : String),
      WFb s = true → PolicyOKb s = true →
      (uf.name = none ∨ ∀ y, findAcct s i = some y → y.parent_id ≠ none) →
      update_account s entries purch expn i uf = .ok (s₂, m) →
      PolicyOKb s₂ = true) ∧
    (create_account_in_account_tree rootsStore
      { name := ("Cash"), parent_id := some 1, nature := some ("credit") }).2 =
      .error (.badRequest ("Accounts under Assets must have debit nature")) ∧
    (create_account_in_account_tree rootsStore
      { name := ("Cash"), parent_id := some 1, account_type := some ("p&l") }).2 =
      .error (.badRequest ("Accounts under Assets must have balance_sheet account type")) ∧
    (create_account_in_account_tree rootsStore
      { name := ("Loans"), parent_id := some 2, nature := some ("debit") }).2 =
      .error (.badRequest ("Accounts under Liability & Equity must have credit nature")) ∧
    (create_account_in_account_tree rootsStore
      { name := ("Loans"), parent_id := some 2, account_type := some ("p&l") }).2 =
      .error (.badRequest
        ("Accounts under Liability & Equity must have balance_sheet account type")) ∧
    (create_account_in_account_tree rootsStore
      { name := ("Misc"), parent_id := some 3, account_type := some ("balance_sheet") }).2 =
      .error (.badRequest ("Accounts under Expenses must have p&l account type")) ∧
    (create_account_in_account_tree rootsStore
      { name := ("Sales"), parent_id := some 4, account_type := some ("balance_sheet") }).2 =
      .error (.badRequest ("Accounts under Revenue must have p&l account type")) ∧
    (create_account_in_account_tree rootsStore
      { name := ("Misc"), parent_id := some 3 }).2 =
      .ok { id := 5, name := ("Misc"), code := ("3001"), parent_id := some 3,
            nature := some ("debit"), cc_required := true,
            account_type := some ("p&l") } ∧
    (create_account_in_account_tree rootsStore
      { name := ("Sales"), parent_id := some 4 }).2 =
      .ok { id := 5, name := ("Sales"), code := ("4001"), parent_id := some 4,
            nature := some ("credit"), cc_required := false,
            account_type := some ("p&l") } :=
  ⟨create_preserves_policy,
   fun s entries purch expn i uf s₂ m hwf hpol htgt hok =>
     update_preserves_policy s entries purch expn i uf s₂ m hwf hpol htgt hok,
   by rfl, by rfl, by rfl, by rfl, by rfl, by rfl, by rfl, by rfl⟩

/-- C4 witness: the preservation halves applied on the concrete
`Cash`-under-Assets store, to a creation of `Petty` under `Cash` and to an
update switching on the cost-center flag. -/
theorem C4_root_policy_amended_witness :
    WFb cashStore = true ∧ PolicyOKb cashStore = true ∧
    PolicyOKb (create_account_in_account_tree cashStore
      { name := ("Petty"), parent_id := some 5 }).1 = true ∧
    update_account cashStore [] [] [] 5 { cc_required := some true } =
      .ok (rootsStore ++ [{ cashAcct with cc_required := true }],
        ("Account updated successfully. Changed fields: cost center requirement")) ∧
    PolicyOKb (rootsStore ++ [{ cashAcct with cc_required := true }]) = true := by
  refine ⟨by decide, by decide, ?_, by rfl, ?_⟩
  · exact C4_root_policy_amended.1 cashStore
      { name := ("Petty"), parent_id := some 5 } (by decide) (by decide)
  · exact C4_root_policy_amended.2.1 cashStore [] [] [] 5
      { cc_required := some true } (rootsStore ++ [{ cashAcct with cc_required := true }])
      ("Account updated successfully. Changed fields: cost center requirement")
      (by decide) (by decide) (Or.inl rfl) (by rfl)

/-- C3 counterexample: once the three-digit suffix under Assets has
overflowed (siblings 1999 and 11000 both present, a store the scheme
itself reaches past 999 siblings and which still satisfies the claim's
loose nesting reading), the descending string order picks 1999 as the last
sibling again, so the next creation is assigned the code 11000 a second
time: the new code collides with an existing row and the table's codes are
no longer pairwise distinct. -/
theorem C3_code_uniqueness_counterexample :
    CodeInvLooseb ovStore = true ∧
    generate_code ovStore (some assetsRoot) = ("11000") ∧
    ovAcct1000 ∈ ovStore ∧ ovAcct1000.code = ("11000") ∧
    create_account_in_account_tree ovStore { name := ("Dup"), parent_id := some 1 } =
      (ovStore ++ [dupAcct], .ok dupAcct) ∧
    dupAcct.code = ("11000") ∧
    NodupCodesb (ovStore ++ [dupAcct]) = false ∧
    noOverflowAtb ovStore assetsRoot = false :=
  ⟨by decide, by rfl, by decide, by decide, by rfl, by rfl, by decide, by decide⟩

/-- C3 (amended): under the strict scheme invariant with distinct ids and
no suffix overflow under the resolved parent, every successful creation
assigns a code that collides with no row anywhere in the tree and nests
under the parent per the scheme; the spec scenarios: the first account
under Assets (code 1000) gets 1001, the next sibling 1002, and a child of
1001 gets 1001001. -/
theorem C3_code_assignment_amended :
    (∀ (s : Store) (body : CreateBody) (s₂ : Store) (a : Account) (pid : Nat)
      (parent : Account),
      CodeInvb s = true → NodupIdsb s = true →
      create_account_in_account_tree s body = (s₂, .ok a) →
      body.parent_id = some pid → findAcct s pid = some parent →
      noOverflowAtb s parent = true →
      s.all (fun b => !(b.code == a.code)) = true ∧ childCodeOKb parent a = true ∧
        s₂ = s ++ [a]) ∧
    create_account_in_account_tree rootsStore
      { name := ("Cash"), parent_id := some 1 } = (cashStore, .ok cashAcct) ∧
    cashAcct.code = ("1001") ∧
    create_account_in_account_tree cashStore
      { name := ("Bank"), parent_id := some 1 } = (cashStore ++ [bankAcct], .ok bankAcct) ∧
    bankAcct.code = ("1002") ∧
    create_account_in_account_tree cashStore
      { name := ("Petty"), parent_id := some 5 } =
      (cashStore ++ [pettyDeep], .ok pettyDeep) ∧
    pettyDeep.code = ("1001001") := by
  refine ⟨?_, by rfl, by rfl, by rfl, by rfl, by rfl, by rfl⟩
  intro s body s₂ a pid parent hinv hnodup hcr hbp hfind hov
  obtain ⟨hcanon, hwf, hcodes, hall4⟩ := codeInv_parts hinv
  have hval := validate_eq_of_canonical hcanon
  obtain ⟨hs2, pid2, parent2, hbp2, hpar2, hpid2, hcode2⟩ := create_ok_code hcr
  rw [hval] at hs2 hpar2 hcode2
  rw [hbp] at hbp2
  cases hbp2
  rw [hfind] at hpar2
  cases hpar2
  have hpmem : parent ∈ s := List.mem_of_find?_eq_some hfind
  obtain ⟨hshape, hv1, _⟩ := generate_code_sem hinv hnodup hpmem hov
  refine ⟨?_, ?_, hs2⟩
  · have hfresh := generate_code_fresh hinv hnodup hpmem hov
    simpa only [hcode2] using hfresh
  · refine childCodeOK_of_shape ?_ ?_ ?_
    · rw [← shapeS_code, hcode2]
      exact hshape
    · rw [hcode2]
      exact hv1
    · have := (hall4 parent hpmem).1
      omega

/-- C3 witness: the freshness-and-nesting half applied to creating `Bank`
under the Assets root of the store already holding `Cash` (code 1001). -/
theorem C3_code_assignment_amended_witness :
    CodeInvb cashStore = true ∧ NodupIdsb cashStore = true ∧
    noOverflowAtb cashStore assetsRoot = true ∧
    cashStore.all (fun b => !(b.code == bankAcct.code)) = true ∧
    childCodeOKb assetsRoot bankAcct = true := by
  have h := C3_code_assignment_amended.1 cashStore
    { name := ("Bank"), parent_id := some 1 } (cashStore ++ [bankAcct]) bankAcct 1
    assetsRoot (by decide) (by decide) (by rfl) rfl (by decide) (by decide)
  exact ⟨by decide, by decide, by decide, h.1, h.2.1⟩

end FixedAssets
